import Mathlib

/-!
# Verification of the Sweep-And-Prune broad phase of reactphysics3d

This file embeds, in Lean, the code of
`src/collision/broadphase/SweepAndPruneAlgorithm.h`:

* the float-to-integer codec `encodeFloatIntoInteger`, together with the
  IEEE-754 binary32 value semantics needed to state its ordering properties;
* the inline overlap tests `testIntersect1DSortedAABBs` and `testIntersect2D`;
* a content-level model of the sweep-and-prune structure itself
  (`addObject` / `removeObject` / `updateObject`), whose C++ implementation
  file is not part of the sources at hand; it is modelled from the
  specification (see the doc comments of the individual definitions).

Machine integers (`uint`, `bodyindex`) are modelled as `Nat`; all the
bit-level operations of the codec are `Nat` bitwise operations on values
below `2 ^ 32`.
-/

namespace ReactPhysics3D

/-! ## The integer codec `encodeFloatIntoInteger` -/

/-- Embedding of `uint encodeFloatIntoInteger(float number)` from
`SweepAndPruneAlgorithm.h`, lines 183–194.  The argument is the 32-bit
pattern of the `float`, reinterpreted as an unsigned integer
(`uint intNumber = (uint&) number;`).  On a 32-bit `uint`, the C++
complement `~intNumber` is `intNumber ^^^ 0xFFFFFFFF`. -/

def encodeFloatIntoInteger (intNumber : Nat) : Nat :=
  if intNumber &&& 0x80000000 ≠ 0 then
    intNumber ^^^ 0xFFFFFFFF
  else
    intNumber ||| 0x80000000

/-- The magnitude denoted by the low 31 bits `r` of an IEEE-754 binary32
pattern, scaled by `2 ^ 149` so that it is a natural number: with
`e = r / 2 ^ 23` the exponent field and `m = r % 2 ^ 23` the mantissa field,
a subnormal (`e = 0`) denotes `m * 2 ^ (-149)` and a normal number denotes
`(2 ^ 23 + m) * 2 ^ (e - 150)`. -/

def floatMag (r : Nat) : Nat :=
  if r / 2 ^ 23 = 0 then r % 2 ^ 23
  else (2 ^ 23 + r % 2 ^ 23) * 2 ^ (r / 2 ^ 23 - 1)

/-- The real value denoted by a binary32 bit pattern `b < 2 ^ 32`, scaled by
`2 ^ 149`.  The top bit is the sign; both zero patterns denote `0`, so `<` on
`floatVal` is exactly the IEEE-754 `<` on finite floats. -/

def floatVal (b : Nat) : Int :=
  if b < 2 ^ 31 then (floatMag b : Int) else -(floatMag (b - 2 ^ 31) : Int)

/-- A binary32 bit pattern denotes a finite float when its exponent field is
not all-ones. -/

def isFinite (b : Nat) : Prop := (b % 2 ^ 31) / 2 ^ 23 ≠ 255

instance (b : Nat) : Decidable (isFinite b) :=
  decidable_of_iff ((b % 2 ^ 31) / 2 ^ 23 ≠ 255) Iff.rfl

/-- Inverse of the codec on 32-bit words. -/

def decodeIntegerIntoFloat (c : Nat) : Nat :=
  if 2 ^ 31 ≤ c then c - 2 ^ 31 else 2 ^ 32 - 1 - c

/-! ## End-points, boxes and the inline intersection tests -/

/-- Embedding of `struct EndPoint` from `SweepAndPruneAlgorithm.h`: one end-point of an
AABB on one axis (`bodyindex boxID; bool isMin; uint value`). -/

structure EndPoint where
  boxID : Nat
  isMin : Bool
  value : Nat
deriving DecidableEq

/-- Embedding of `struct BoxAABB` from `SweepAndPruneAlgorithm.h`: per axis, the indices
of the box's minimum and maximum end-points inside that axis's end-point
array (`bodyindex min[3]; bodyindex max[3]`). The owning body is kept as an
integer identity. -/

structure BoxAABB where
  min : Fin 3 → Nat
  max : Fin 3 → Nat
  body : Nat

/-- Embedding of `struct AABBInt` from `SweepAndPruneAlgorithm.h`: integer-coordinate
axis-aligned bounding box (`uint min[3]; uint max[3]`). -/

structure AABBInt where
  min : Fin 3 → Nat
  max : Fin 3 → Nat

/-- Default end-point, used to make the array read total. -/

def EndPoint.dflt : EndPoint := ⟨0, false, 0⟩

/-- The array read `endPointsArray[i].value`. -/

def valueAt (l : List EndPoint) (i : Nat) : Nat := (l.getD i EndPoint.dflt).value

/-- Embedding of `SweepAndPruneAlgorithm::testIntersect1DSortedAABBs` from
`SweepAndPruneAlgorithm.h`, lines 200–205:
`return !(endPointsArray[box1.max[axis]].value < box2.min[axis]);`. -/

def testIntersect1DSortedAABBs (box1 : BoxAABB) (box2 : AABBInt)
    (endPointsArray : List EndPoint) (axis : Fin 3) : Bool :=
  !(decide (valueAt endPointsArray (box1.max axis) < box2.min axis))

/-- Embedding of `SweepAndPruneAlgorithm::testIntersect2D` from
`SweepAndPruneAlgorithm.h`, lines 210–214: the comparisons are between the
*indices* `box.min[axis]` / `box.max[axis]` of the boxes' end-points, not
between end-point values. -/

def testIntersect2D (box1 box2 : BoxAABB) (axis1 axis2 : Fin 3) : Bool :=
  !(decide (box2.max axis1 < box1.min axis1) || decide (box1.max axis1 < box2.min axis1) ||
    decide (box2.max axis2 < box1.min axis2) || decide (box1.max axis2 < box2.min axis2))

/-- Concrete end-point array used to exercise the intersection tests. -/

def wEndPoints : List EndPoint :=
  [⟨1, true, 0⟩, ⟨2, true, 3⟩, ⟨1, false, 5⟩, ⟨2, false, 8⟩]

/-- Concrete box with end-point indices 0 (min) and 2 (max) on every axis. -/

def wBox1 : BoxAABB := ⟨fun _ => 0, fun _ => 2, 1⟩

/-- Concrete box with end-point indices 1 (min) and 3 (max) on every axis. -/

def wBox2 : BoxAABB := ⟨fun _ => 1, fun _ => 3, 2⟩

/-! ## Content-level model of the sweep-and-prune structure

The implementation file of `SweepAndPruneAlgorithm` is not among the sources
at hand — the header only declares `addObject`, `removeObject`,
`updateObject` and `addPair`.  The three public operations below are
therefore modelled from the specification (§3, §4.2, §6, §7) at the level of
observable content: the body → AABB map, the per-axis end-point sequences
sorted by value, the current overlapping-pair set, and the emitted
pair-added / pair-removed events.  Box identifiers coincide with body
identities (the body → box map is a bijection over live boxes, §3), and the
incremental exchange pass of `updateObject` is modelled by its result: the
updated markers sit at their sorted positions, and the overlap status of
every pair involving the updated box is recomputed, emitting an event on
each transition and only there. -/

/-- Modelled from the spec: the pair-added / pair-removed notifications of
§6, reported to the owning collision-detection coordinator (the missing
`SweepAndPruneAlgorithm` implementation file routes them through
`addPair` and the collision-detection owner). -/

inductive PairEvent where
  | added (body1 body2 : Nat)
  | removed (body1 body2 : Nat)
deriving DecidableEq

/-- Modelled from the spec: the error taxonomy of §7 — unknown-body for
update/remove of an untracked body, duplicate-body for add of an
already-tracked body. -/

inductive SAPError where
  | unknownBody
  | duplicateBody
deriving DecidableEq

/-- Modelled from the spec: the observable state of §3 — live bodies with
their most recently supplied integer AABB, the three per-axis end-point
arrays, and the current overlapping-pair set (each pair stored with the
smaller body first). -/

structure SAPState where
  bodies : List (Nat × AABBInt)
  endPoints : Fin 3 → List EndPoint
  pairs : List (Nat × Nat)

/-- The structure before any call. -/

def emptyState : SAPState := ⟨[], fun _ => [], []⟩

/-- AABB of a live body (the `mMapBodyToBoxIndex` lookup). -/

def lookupBody (b : Nat) : List (Nat × AABBInt) → Option AABBInt
  | [] => none
  | p :: rest => if p.1 = b then some p.2 else lookupBody b rest

/-- Three-axis overlap of two integer AABBs: on every axis, neither interval
lies strictly beyond the other (the criterion of the inline tests of the
header: `!(max < min)` in both orders). -/

def overlap3D (a1 a2 : AABBInt) : Bool :=
  decide (∀ ax : Fin 3, a1.min ax ≤ a2.max ax ∧ a2.min ax ≤ a1.max ax)

/-- Unordered body pair, stored smaller-first. -/

def normPair (a b : Nat) : Nat × Nat := if a ≤ b then (a, b) else (b, a)

/-- Is the unordered pair `{a, b}` in the current pair set? -/

def pairMem (pairs : List (Nat × Nat)) (a b : Nat) : Bool :=
  decide (normPair a b ∈ pairs)

/-- Min end-point marker of box `b` on axis `ax`. -/

def markerMin (b : Nat) (a : AABBInt) (ax : Fin 3) : EndPoint := ⟨b, true, a.min ax⟩

/-- Max end-point marker of box `b` on axis `ax`. -/

def markerMax (b : Nat) (a : AABBInt) (ax : Fin 3) : EndPoint := ⟨b, false, a.max ax⟩

/-- Insert a marker at its sorted position (by value). -/

def insertEndPoint (m : EndPoint) : List EndPoint → List EndPoint
  | [] => [m]
  | x :: xs => if m.value ≤ x.value then m :: x :: xs else x :: insertEndPoint m xs

/-- Insert box `b`'s two markers on axis `ax` at their sorted positions. -/

def insertMarkers (b : Nat) (a : AABBInt) (ax : Fin 3) (l : List EndPoint) :
    List EndPoint :=
  insertEndPoint (markerMax b a ax) (insertEndPoint (markerMin b a ax) l)

/-- Remove box `b`'s markers from an axis array. -/

def removeMarkers (b : Nat) (l : List EndPoint) : List EndPoint :=
  l.filter (fun m => decide (m.boxID ≠ b))

/-- Modelled from the spec: `addObject` of §4.2, whose implementation file
is missing from the sources. It fails with duplicate-body on a live body; otherwise inserts the six markers at their sorted positions,
registers the body with its AABB, and reports a pair-added event for every
live box whose AABB truly overlaps the new one on all three axes. -/

def addObject (body : Nat) (aabb : AABBInt) (S : SAPState) :
    Except SAPError (SAPState × List PairEvent) :=
  match lookupBody body S.bodies with
  | some _ => .error .duplicateBody
  | none =>
    let overl := S.bodies.filter (fun p => overlap3D aabb p.2)
    .ok ({ bodies := (body, aabb) :: S.bodies,
           endPoints := fun ax => insertMarkers body aabb ax (S.endPoints ax),
           pairs := S.pairs ++ overl.map (fun p => normPair body p.1) },
         overl.map (fun p => PairEvent.added body p.1))

/-- Modelled from the spec: `removeObject` of §4.2, whose implementation
file is missing from the sources. It fails with unknown-body on
an untracked body; otherwise reports a pair-removed event for every current
pair involving the body, removes those pairs, the body's six markers and the
body itself. -/

def removeObject (body : Nat) (S : SAPState) :
    Except SAPError (SAPState × List PairEvent) :=
  match lookupBody body S.bodies with
  | none => .error .unknownBody
  | some _ =>
    let involved := S.pairs.filter (fun p => decide (p.1 = body ∨ p.2 = body))
    .ok ({ bodies := S.bodies.filter (fun p => decide (p.1 ≠ body)),
           endPoints := fun ax => removeMarkers body (S.endPoints ax),
           pairs := S.pairs.filter (fun p => decide (¬(p.1 = body ∨ p.2 = body))) },
         involved.map (fun p => PairEvent.removed p.1 p.2))

/-- Modelled from the spec: `updateObject` of §4.2, whose implementation
file is missing from the sources. It fails with unknown-body on
an untracked body; otherwise stores the new AABB, re-establishes the sorted
position of the body's six markers, recomputes the three-axis overlap of
every pair involving the body, and reports pair-removed / pair-added events
exactly for the pairs whose overlap status changed. -/

def updateObject (body : Nat) (aabb : AABBInt) (S : SAPState) :
    Except SAPError (SAPState × List PairEvent) :=
  match lookupBody body S.bodies with
  | none => .error .unknownBody
  | some _ =>
    let others := S.bodies.filter (fun p => decide (p.1 ≠ body))
    .ok ({ bodies := (body, aabb) :: others,
           endPoints := fun ax =>
             insertMarkers body aabb ax (removeMarkers body (S.endPoints ax)),
           pairs := S.pairs.filter (fun p => decide (¬(p.1 = body ∨ p.2 = body)))
                    ++ (others.filter (fun p => overlap3D aabb p.2)).map
                        (fun p => normPair body p.1) },
         (others.filter (fun p => pairMem S.pairs body p.1 && !overlap3D aabb p.2)).map
             (fun p => PairEvent.removed body p.1)
           ++ (others.filter (fun p => !pairMem S.pairs body p.1 && overlap3D aabb p.2)).map
             (fun p => PairEvent.added body p.1))

/-- One public call of the structure. -/

inductive Op where
  | add (body : Nat) (aabb : AABBInt)
  | remove (body : Nat)
  | update (body : Nat) (aabb : AABBInt)

/-- One call; a call that reports an error leaves the state unchanged and
emits no events. -/

def step (S : SAPState) : Op → SAPState × List PairEvent
  | .add b a =>
    match addObject b a S with
    | .ok r => r
    | .error _ => (S, [])
  | .remove b =>
    match removeObject b S with
    | .ok r => r
    | .error _ => (S, [])
  | .update b a =>
    match updateObject b a S with
    | .ok r => r
    | .error _ => (S, [])

/-- Run a call sequence, collecting the full event trace. -/

def run (S : SAPState) : List Op → SAPState × List PairEvent
  | [] => (S, [])
  | op :: ops =>
    let r := step S op
    let r2 := run r.1 ops
    (r2.1, r.2 ++ r2.2)

/-- A well-formed AABB: min ≤ max on every axis (every floating-point AABB
encodes to such an integer AABB, the codec being order preserving). -/

def wfAABB (a : AABBInt) : Prop := ∀ ax : Fin 3, a.min ax ≤ a.max ax

/-- A call is well formed when the AABB it supplies is. -/

def wfOp : Op → Prop
  | .add _ a => wfAABB a
  | .remove _ => True
  | .update _ a => wfAABB a

/-- The end-point content dictated by the body map: one min and one max
marker per body per axis. -/

def markersOf : List (Nat × AABBInt) → Fin 3 → List EndPoint
  | [], _ => []
  | p :: rest, ax => markerMin p.1 p.2 ax :: markerMax p.1 p.2 ax :: markersOf rest ax

/-- Invariant of the model, maintained by every call. -/

structure Inv (S : SAPState) : Prop where
  sorted : ∀ ax, (S.endPoints ax).Pairwise (fun p q => p.value ≤ q.value)
  keysNodup : (S.bodies.map Prod.fst).Nodup
  wfBodies : ∀ p ∈ S.bodies, wfAABB p.2
  perm : ∀ ax, (S.endPoints ax).Perm (markersOf S.bodies ax)
  pairsNorm : ∀ p ∈ S.pairs, p.1 < p.2
  pairsNodup : S.pairs.Nodup
  pairsIff : ∀ a b, pairMem S.pairs a b = true ↔
    (a ≠ b ∧ ∃ aA aB, lookupBody a S.bodies = some aA ∧
      lookupBody b S.bodies = some aB ∧ overlap3D aA aB = true)

/-- States reachable from the empty structure by well-formed calls. -/

def Reachable (S : SAPState) : Prop :=
  ∃ ops : List Op, (∀ op ∈ ops, wfOp op) ∧ (run emptyState ops).1 = S

/-- Concrete AABB with min 2 and max 5 on every axis. -/

def wAABB1 : AABBInt := ⟨fun _ => 2, fun _ => 5⟩

/-- Concrete AABB with min 4 and max 8 on every axis. -/

def wAABB2 : AABBInt := ⟨fun _ => 4, fun _ => 8⟩

/-- Concrete AABB with min 10 and max 12 on every axis. -/

def wAABB3 : AABBInt := ⟨fun _ => 10, fun _ => 12⟩

/-- A concrete call sequence exercising all three operations. -/

def wOps : List Op :=
  [Op.add 1 wAABB1, Op.add 2 wAABB2, Op.update 2 wAABB3, Op.remove 1]

/-- Project an event onto a normalized pair: `some true` for a pair-added
event for that pair, `some false` for a pair-removed event, `none` for an
event about another pair. -/

def projEvent (p : Nat × Nat) : PairEvent → Option Bool
  | .added a b => if normPair a b = p then some true else none
  | .removed a b => if normPair a b = p then some false else none

/-- The subsequence of a trace concerning one unordered pair, as the list of
its event kinds (`true` = added, `false` = removed). -/

def projTrace (p : Nat × Nat) (tr : List PairEvent) : List Bool :=
  tr.filterMap (projEvent p)

/-- The pair is currently reported as overlapping: a pair-added event was
emitted for it with no subsequent pair-removed event. -/

def reportedOverlapping (tr : List PairEvent) (a b : Nat) : Prop :=
  (projTrace (normPair a b) tr).getLast? = some true

/-- The event kinds strictly alternate. -/

def Alternating (l : List Bool) : Prop := l.Chain' (fun x y => x ≠ y)

/-- Trace invariant: for every pair, the events so far alternate, and the
pair is currently reported as overlapping exactly when it is in the current
pair set. -/

def TraceInv (tr : List PairEvent) (S : SAPState) : Prop :=
  ∀ p : Nat × Nat, Alternating (projTrace p tr) ∧
    ((projTrace p tr).getLast? = some true ↔ p ∈ S.pairs)

/-! ## Theorems -/

/-- The sign-bit test `intNumber & 0x80000000` of the codec is nonzero
exactly on the upper half of the 32-bit range. -/

theorem and_sign_ne_zero {b : Nat} (hb : b < 2 ^ 32) :
    (b &&& 0x80000000 ≠ 0) ↔ 2 ^ 31 ≤ b := by
  have h31 : (0x80000000 : Nat) = 2 ^ 31 := by norm_num
  rw [h31, Nat.and_two_pow]
  have ht : b.testBit 31 = decide (b / 2 ^ 31 % 2 = 1) := Nat.testBit_to_div_mod
  constructor
  · intro h
    by_contra hlt
    have : b.testBit 31 = false := by
      rw [ht]; simp only [decide_eq_false_iff_not]; omega
    rw [this] at h; simp at h
  · intro h
    have : b.testBit 31 = true := by
      rw [ht]; simp only [decide_eq_true_eq]; omega
    rw [this]
    simp

/-- Complement of a 32-bit word: xor with `0xFFFFFFFF` is subtraction from
`0xFFFFFFFF`. -/

theorem xor_allones {b : Nat} (hb : b < 2 ^ 32) :
    b ^^^ 0xFFFFFFFF = 2 ^ 32 - 1 - b := by
  have hF : (0xFFFFFFFF : Nat) = 2 ^ 32 - 1 := by norm_num
  rw [hF]
  have hsub : 2 ^ 32 - 1 - b = 2 ^ 32 - (b + 1) := by omega
  apply Nat.eq_of_testBit_eq
  intro i
  rw [Nat.testBit_xor, Nat.testBit_two_pow_sub_one, hsub,
    Nat.testBit_two_pow_sub_succ hb]
  by_cases hi : i < 32
  · simp [hi]
  · have : b.testBit i = false :=
      Nat.testBit_lt_two_pow (lt_of_lt_of_le hb (Nat.pow_le_pow_right (by norm_num) (by omega)))
    simp [hi, this]

/-- Setting the sign bit of a 31-bit word is addition of `2 ^ 31`. -/

theorem or_sign_bit {b : Nat} (hb : b < 2 ^ 31) :
    b ||| 0x80000000 = b + 2 ^ 31 := by
  have h31 : (0x80000000 : Nat) = 2 ^ 31 := by norm_num
  rw [h31]
  have hadd : b + 2 ^ 31 = 2 ^ 31 + b := Nat.add_comm _ _
  apply Nat.eq_of_testBit_eq
  intro i
  rw [Nat.testBit_or, hadd]
  rcases Nat.lt_trichotomy i 31 with hi | hi | hi
  · rw [Nat.testBit_two_pow_add_gt hi, Nat.testBit_two_pow_of_ne (by omega)]
    simp
  · subst hi
    rw [Nat.testBit_two_pow_add_eq, Nat.testBit_two_pow_self,
      Nat.testBit_lt_two_pow hb]
    simp
  · have hb' : b.testBit i = false :=
      Nat.testBit_lt_two_pow (lt_of_lt_of_le hb (Nat.pow_le_pow_right (by norm_num) (by omega)))
    have hsum : 2 ^ 31 + b < 2 ^ i := by
      have : 2 ^ 32 ≤ 2 ^ i := Nat.pow_le_pow_right (by norm_num) (by omega)
      have h2 : (2 : Nat) ^ 32 = 2 ^ 31 + 2 ^ 31 := by norm_num
      omega
    rw [Nat.testBit_lt_two_pow hsum, hb',
      Nat.testBit_two_pow_of_ne (by omega)]
    simp

/-- Arithmetic characterization of the codec on 32-bit words: on the upper
half (sign bit set) it is the 32-bit bitwise complement
`0xFFFFFFFF - b`, on the lower half it adds `2 ^ 31` (sets the sign bit). -/

theorem encode_char {b : Nat} (hb : b < 2 ^ 32) :
    encodeFloatIntoInteger b = if 2 ^ 31 ≤ b then 2 ^ 32 - 1 - b else b + 2 ^ 31 := by
  unfold encodeFloatIntoInteger
  by_cases hs : 2 ^ 31 ≤ b
  · rw [if_pos ((and_sign_ne_zero hb).mpr hs), if_pos hs, xor_allones hb]
  · have hlt : b < 2 ^ 31 := by omega
    rw [if_neg (fun h => hs ((and_sign_ne_zero hb).mp h)), if_neg hs, or_sign_bit hlt]

/-- The scaled binary32 magnitude is strictly monotone in the low 31 bits of
the pattern: larger exponent/mantissa fields denote a larger magnitude. -/

theorem floatMag_lt_floatMag {r1 r2 : Nat} (h : r1 < r2) : floatMag r1 < floatMag r2 := by
  unfold floatMag
  set e1 := r1 / 2 ^ 23 with he1
  set e2 := r2 / 2 ^ 23 with he2
  set m1 := r1 % 2 ^ 23 with hm1
  set m2 := r2 % 2 ^ 23 with hm2
  have d1 : 2 ^ 23 * e1 + m1 = r1 := Nat.div_add_mod r1 (2 ^ 23)
  have d2 : 2 ^ 23 * e2 + m2 = r2 := Nat.div_add_mod r2 (2 ^ 23)
  have hm1lt : m1 < 2 ^ 23 := Nat.mod_lt _ (by norm_num)
  have hm2lt : m2 < 2 ^ 23 := Nat.mod_lt _ (by norm_num)
  have hee : e1 ≤ e2 := Nat.div_le_div_right h.le
  rcases Nat.eq_or_lt_of_le hee with heq | hlt
  · have hmm : m1 < m2 := by omega
    rw [← heq]
    by_cases h0 : e1 = 0
    · rw [if_pos h0, if_pos h0]; exact hmm
    · rw [if_neg h0, if_neg h0]
      exact (Nat.mul_lt_mul_right (Nat.two_pow_pos _)).mpr (by omega)
  · have h20 : e2 ≠ 0 := by omega
    rw [if_neg h20]
    by_cases h0 : e1 = 0
    · rw [if_pos h0]
      calc m1 < 2 ^ 23 := hm1lt
        _ ≤ (2 ^ 23 + m2) * 1 := by omega
        _ ≤ (2 ^ 23 + m2) * 2 ^ (e2 - 1) :=
            Nat.mul_le_mul_left _ (Nat.one_le_two_pow)
    · rw [if_neg h0]
      calc (2 ^ 23 + m1) * 2 ^ (e1 - 1)
          < 2 ^ 24 * 2 ^ (e1 - 1) :=
            (Nat.mul_lt_mul_right (Nat.two_pow_pos _)).mpr (by omega)
        _ = 2 ^ 23 * 2 ^ e1 := by
            rw [← Nat.pow_add, ← Nat.pow_add]; congr 1; omega
        _ ≤ 2 ^ 23 * 2 ^ (e2 - 1) :=
            Nat.mul_le_mul_left _ (Nat.pow_le_pow_right (by norm_num) (by omega))
        _ ≤ (2 ^ 23 + m2) * 2 ^ (e2 - 1) :=
            Nat.mul_le_mul_right _ (by omega)

/-- Strict monotonicity in both directions. -/

theorem floatMag_lt_iff {r1 r2 : Nat} : floatMag r1 < floatMag r2 ↔ r1 < r2 := by
  constructor
  · intro hlt
    by_contra hle
    push_neg at hle
    rcases Nat.eq_or_lt_of_le hle with heq | h
    · rw [heq] at hlt; exact Nat.lt_irrefl _ hlt
    · exact Nat.lt_asymm hlt (floatMag_lt_floatMag h)
  · exact floatMag_lt_floatMag

/-- Only the all-zero low bits denote magnitude zero. -/

theorem floatMag_eq_zero_iff {r : Nat} : floatMag r = 0 ↔ r = 0 := by
  constructor
  · intro h
    by_contra hr
    have : floatMag 0 < floatMag r := floatMag_lt_floatMag (by omega)
    have h0 : floatMag 0 = 0 := by simp [floatMag]
    omega
  · intro h; subst h; simp [floatMag]

/-- The codec never leaves the 32-bit range. -/

theorem encode_lt {b : Nat} (hb : b < 2 ^ 32) : encodeFloatIntoInteger b < 2 ^ 32 := by
  rw [encode_char hb]
  by_cases hs : 2 ^ 31 ≤ b
  · rw [if_pos hs]; omega
  · rw [if_neg hs]
    have : (2 : Nat) ^ 32 = 2 ^ 31 + 2 ^ 31 := by norm_num
    omega

/-- The decoder is a left inverse of the codec. -/

theorem decode_encode {b : Nat} (hb : b < 2 ^ 32) :
    decodeIntegerIntoFloat (encodeFloatIntoInteger b) = b := by
  rw [encode_char hb]
  unfold decodeIntegerIntoFloat
  have h2 : (2 : Nat) ^ 32 = 2 ^ 31 + 2 ^ 31 := by norm_num
  by_cases hs : 2 ^ 31 ≤ b
  · rw [if_pos hs, if_neg (by omega)]
    omega
  · rw [if_neg hs, if_pos (by omega)]
    omega

/-- The decoder is a right inverse of the codec. -/

theorem encode_decode {c : Nat} (hc : c < 2 ^ 32) :
    encodeFloatIntoInteger (decodeIntegerIntoFloat c) = c := by
  unfold decodeIntegerIntoFloat
  have h2 : (2 : Nat) ^ 32 = 2 ^ 31 + 2 ^ 31 := by norm_num
  by_cases hs : 2 ^ 31 ≤ c
  · rw [if_pos hs, encode_char (by omega)]
    rw [if_neg (by omega)]
    omega
  · rw [if_neg hs, encode_char (by omega)]
    rw [if_pos (by omega)]
    omega

/-- The codec strictly preserves the float order on 32-bit patterns, except
that the two zero patterns (equal under IEEE-754 comparison) receive distinct
codes; and it never identifies two distinct patterns. -/

theorem encode_order (a b : Nat) (ha : a < 2 ^ 32) (hb : b < 2 ^ 32) :
    (¬(a = 0x80000000 ∧ b = 0) →
      (floatVal a < floatVal b ↔ encodeFloatIntoInteger a < encodeFloatIntoInteger b)) ∧
    (a ≠ b → encodeFloatIntoInteger a ≠ encodeFloatIntoInteger b) := by
  have h2 : (2 : Nat) ^ 32 = 2 ^ 31 + 2 ^ 31 := by norm_num
  have h80 : (0x80000000 : Nat) = 2 ^ 31 := by norm_num
  rw [encode_char ha, encode_char hb, h80]
  constructor
  · intro hz
    by_cases ha31 : a < 2 ^ 31 <;> by_cases hb31 : b < 2 ^ 31
    · rw [if_neg (by omega), if_neg (by omega)]
      simp only [floatVal, if_pos ha31, if_pos hb31, Nat.cast_lt, floatMag_lt_iff]
      omega
    · rw [if_neg (by omega), if_pos (by omega)]
      simp only [floatVal, if_pos ha31, if_neg hb31]
      exact iff_of_false (by omega) (by omega)
    · rw [if_pos (by omega), if_neg (by omega)]
      simp only [floatVal, if_neg ha31, if_pos hb31]
      have key : a - 2 ^ 31 ≠ 0 ∨ b ≠ 0 := by omega
      have h1 : 0 < floatMag (a - 2 ^ 31) ∨ 0 < floatMag b := by
        rcases key with hk | hk
        · left
          have := floatMag_eq_zero_iff (r := a - 2 ^ 31)
          omega
        · right
          have := floatMag_eq_zero_iff (r := b)
          omega
      exact iff_of_true (by omega) (by omega)
    · rw [if_pos (by omega), if_pos (by omega)]
      simp only [floatVal, if_neg ha31, if_neg hb31, neg_lt_neg_iff, Nat.cast_lt,
        floatMag_lt_iff]
      omega
  · intro hne
    split_ifs <;> omega

/-- The decoder also stays in the 32-bit range. -/

theorem decode_lt {c : Nat} (hc : c < 2 ^ 32) : decodeIntegerIntoFloat c < 2 ^ 32 := by
  unfold decodeIntegerIntoFloat
  have h2 : (2 : Nat) ^ 32 = 2 ^ 31 + 2 ^ 31 := by norm_num
  split_ifs <;> omega

/-- Claim C1, counterexample: at the finite pair `-0.0` (pattern `0x80000000`)
and `+0.0` (pattern `0`), IEEE-754 `<` does not hold — the two values are
equal — yet the codes strictly increase, so the claimed equivalence
`a < b ⇔ encode a < encode b` fails at this pair. -/

theorem claim_C1_counterexample :
    isFinite 0x80000000 ∧ isFinite 0 ∧ floatVal 0x80000000 = floatVal 0 ∧
    ¬(floatVal 0x80000000 < floatVal 0) ∧
    encodeFloatIntoInteger 0x80000000 < encodeFloatIntoInteger 0 := by decide

/-- Claim C1 (amended): for finite 32-bit float patterns `a`, `b`, the value
order and the code order agree — `a < b ⇔ encode a < encode b` — for every
pair except `a = -0.0`, `b = +0.0` (where the values are equal but the codes
increase), and the codec is injective on bit patterns. -/

theorem claim_C1 (a b : Nat) (ha : a < 2 ^ 32) (hb : b < 2 ^ 32)
    (hfa : isFinite a) (hfb : isFinite b) :
    (¬(a = 0x80000000 ∧ b = 0) →
      (floatVal a < floatVal b ↔ encodeFloatIntoInteger a < encodeFloatIntoInteger b)) ∧
    (a ≠ b → encodeFloatIntoInteger a ≠ encodeFloatIntoInteger b) :=
  encode_order a b ha hb

theorem claim_C1_witness :
    (¬((0x3F800000 : Nat) = 0x80000000 ∧ (0x40000000 : Nat) = 0) →
      (floatVal 0x3F800000 < floatVal 0x40000000 ↔
        encodeFloatIntoInteger 0x3F800000 < encodeFloatIntoInteger 0x40000000)) ∧
    ((0x3F800000 : Nat) ≠ 0x40000000 →
      encodeFloatIntoInteger 0x3F800000 ≠ encodeFloatIntoInteger 0x40000000) :=
  claim_C1 0x3F800000 0x40000000 (by decide) (by decide) (by decide) (by decide)

/-- Claim C2: bit-for-bit rule of the codec: the sign-bit test
`intNumber & 0x80000000` selects exactly the patterns of the upper half of
the 32-bit range; on those the result is the 32-bit bitwise complement
`0xFFFFFFFF - b` of the pattern, on all others it is the pattern with the
sign bit set, `b + 0x80000000`. -/

theorem claim_C2 (b : Nat) (hb : b < 2 ^ 32) :
    ((b &&& 0x80000000 ≠ 0) ↔ 2 ^ 31 ≤ b) ∧
    (2 ^ 31 ≤ b → encodeFloatIntoInteger b = 2 ^ 32 - 1 - b) ∧
    (b < 2 ^ 31 → encodeFloatIntoInteger b = b + 2 ^ 31) := by
  refine ⟨and_sign_ne_zero hb, fun hs => ?_, fun hs => ?_⟩
  · rw [encode_char hb, if_pos hs]
  · rw [encode_char hb, if_neg (by omega)]

theorem claim_C2_witness :
    (((0x80000001 : Nat) &&& 0x80000000 ≠ 0) ↔ 2 ^ 31 ≤ 0x80000001) ∧
    (2 ^ 31 ≤ 0x80000001 →
      encodeFloatIntoInteger 0x80000001 = 2 ^ 32 - 1 - 0x80000001) ∧
    ((0x80000001 : Nat) < 2 ^ 31 →
      encodeFloatIntoInteger 0x80000001 = 0x80000001 + 2 ^ 31) :=
  claim_C2 0x80000001 (by decide)

/-- Claim C10: the codec is a bijection on 32-bit words; it maps the pattern of
`-0.0` to `0x7FFFFFFF` and the pattern of `+0.0` to `0x80000000`, two
distinct codes for float values that compare equal under IEEE-754. -/

theorem claim_C10 :
    (∀ a, a < 2 ^ 32 → ∀ b, b < 2 ^ 32 →
      encodeFloatIntoInteger a = encodeFloatIntoInteger b → a = b) ∧
    (∀ c, c < 2 ^ 32 → ∃ b, b < 2 ^ 32 ∧ encodeFloatIntoInteger b = c) ∧
    encodeFloatIntoInteger 0x80000000 = 0x7FFFFFFF ∧
    encodeFloatIntoInteger 0 = 0x80000000 ∧
    floatVal 0x80000000 = floatVal 0 := by
  refine ⟨?_, ?_, by decide, by decide, by decide⟩
  · intro a ha b hb heq
    have h1 := decode_encode ha
    have h2 := decode_encode hb
    rw [heq] at h1
    rw [h2] at h1
    exact h1.symm
  · intro c hc
    exact ⟨decodeIntegerIntoFloat c, decode_lt hc, encode_decode hc⟩

theorem claim_C10_witness :
    ∃ b, b < 2 ^ 32 ∧ encodeFloatIntoInteger b = 0x12345678 :=
  claim_C10.2.1 0x12345678 (by decide)

/-- In a value-sorted end-point array, values are monotone in the index. -/

theorem valueAt_mono {l : List EndPoint}
    (hs : l.Pairwise (fun p q => p.value ≤ q.value))
    {i j : Nat} (hi : i < l.length) (hj : j < l.length) (hij : i ≤ j) :
    valueAt l i ≤ valueAt l j := by
  rcases Nat.eq_or_lt_of_le hij with heq | hlt
  · subst heq; exact le_refl _
  · have h := List.pairwise_iff_get.mp hs ⟨i, hi⟩ ⟨j, hj⟩ hlt
    rw [valueAt, valueAt, List.getD_eq_getElem l _ hi, List.getD_eq_getElem l _ hj]
    simpa using h

/-- In a strictly value-sorted end-point array, comparison of indices is
comparison of values. -/

theorem valueAt_lt_iff {l : List EndPoint}
    (hs : l.Pairwise (fun p q => p.value < q.value))
    {i j : Nat} (hi : i < l.length) (hj : j < l.length) :
    valueAt l i < valueAt l j ↔ i < j := by
  constructor
  · intro h
    by_contra hle
    push_neg at hle
    rcases Nat.eq_or_lt_of_le hle with heq | hlt
    · subst heq; exact Nat.lt_irrefl _ h
    · have h2 := List.pairwise_iff_get.mp hs ⟨j, hj⟩ ⟨i, hi⟩ hlt
      rw [valueAt, valueAt, List.getD_eq_getElem l _ hi, List.getD_eq_getElem l _ hj] at h
      simp only [List.get_eq_getElem] at h2
      omega
  · intro h
    have h2 := List.pairwise_iff_get.mp hs ⟨i, hi⟩ ⟨j, hj⟩ h
    rw [valueAt, valueAt, List.getD_eq_getElem l _ hi, List.getD_eq_getElem l _ hj]
    simpa using h2

/-- Two closed natural-number intervals intersect iff neither lies strictly
beyond the other. -/

theorem interval_intersect_iff {vA vB vC vD : Nat} (hAB : vA ≤ vB) (hCD : vC ≤ vD) :
    (∃ x, vA ≤ x ∧ x ≤ vB ∧ vC ≤ x ∧ x ≤ vD) ↔ (vC ≤ vB ∧ vA ≤ vD) := by
  constructor
  · rintro ⟨x, h1, h2, h3, h4⟩; omega
  · rintro ⟨h1, h2⟩
    rcases Nat.le_total vA vC with hac | hca
    · exact ⟨vC, hac, h1, le_refl _, hCD⟩
    · exact ⟨vA, le_refl _, hAB, hca, h2⟩

/-- Claim C8: for two boxes on an axis whose end-point array is sorted by value
and whose min end-point values satisfy `box1.min ≤ box2.min`, the single
comparison of `testIntersect1DSortedAABBs` — true iff box1's max value is not
below box2's min value — decides exactly whether the boxes' closed `[min,
max]` value intervals intersect on that axis. -/

theorem claim_C8 (box1 : BoxAABB) (box2 : AABBInt) (l : List EndPoint) (axis : Fin 3)
    (hsorted : l.Pairwise (fun p q => p.value ≤ q.value))
    (hmin : box1.min axis < l.length) (hmax : box1.max axis < l.length)
    (hidx : box1.min axis ≤ box1.max axis)
    (hwf2 : box2.min axis ≤ box2.max axis) :
    valueAt l (box1.min axis) ≤ box2.min axis →
    (testIntersect1DSortedAABBs box1 box2 l axis = true ↔
      ∃ x, valueAt l (box1.min axis) ≤ x ∧ x ≤ valueAt l (box1.max axis) ∧
        box2.min axis ≤ x ∧ x ≤ box2.max axis) := by
  intro hpre
  have h1 : valueAt l (box1.min axis) ≤ valueAt l (box1.max axis) :=
    valueAt_mono hsorted hmin hmax hidx
  rw [testIntersect1DSortedAABBs, Bool.not_eq_eq_eq_not, Bool.not_true,
    decide_eq_false_iff_not, not_lt,
    interval_intersect_iff h1 hwf2]
  omega

theorem claim_C8_witness :
    valueAt [⟨1, true, 2⟩, ⟨1, false, 5⟩] (BoxAABB.min ⟨fun _ => 0, fun _ => 1, 1⟩ 0) ≤
      AABBInt.min ⟨fun _ => 4, fun _ => 7⟩ 0 ∧
    (testIntersect1DSortedAABBs ⟨fun _ => 0, fun _ => 1, 1⟩ ⟨fun _ => 4, fun _ => 7⟩
        [⟨1, true, 2⟩, ⟨1, false, 5⟩] 0 = true ↔
      ∃ x, valueAt [⟨1, true, 2⟩, ⟨1, false, 5⟩]
          (BoxAABB.min ⟨fun _ => 0, fun _ => 1, 1⟩ 0) ≤ x ∧
        x ≤ valueAt [⟨1, true, 2⟩, ⟨1, false, 5⟩]
          (BoxAABB.max ⟨fun _ => 0, fun _ => 1, 1⟩ 0) ∧
        AABBInt.min ⟨fun _ => 4, fun _ => 7⟩ 0 ≤ x ∧
        x ≤ AABBInt.max ⟨fun _ => 4, fun _ => 7⟩ 0) := by
  refine ⟨by decide, claim_C8 ⟨fun _ => 0, fun _ => 1, 1⟩ ⟨fun _ => 4, fun _ => 7⟩
    [⟨1, true, 2⟩, ⟨1, false, 5⟩] 0 ?_ ?_ ?_ ?_ ?_ (by decide)⟩
  · exact List.Pairwise.cons (by intro q hq; simp at hq; simp [hq]) (List.pairwise_singleton _ _)
  · decide
  · decide
  · decide
  · decide

/-- Claim C9: the test `testIntersect2D` compares the boxes' end-point indices; when
each axis array is strictly sorted by value (all values distinct), the test
returns true exactly when the boxes' closed `[min, max]` value intervals
intersect on `axis1` and also intersect on `axis2`. -/

theorem claim_C9 (box1 box2 : BoxAABB) (l1 l2 : List EndPoint) (axis1 axis2 : Fin 3)
    (hs1 : l1.Pairwise (fun p q => p.value < q.value))
    (hs2 : l2.Pairwise (fun p q => p.value < q.value))
    (h11 : box1.min axis1 < l1.length) (h12 : box1.max axis1 < l1.length)
    (h21 : box2.min axis1 < l1.length) (h22 : box2.max axis1 < l1.length)
    (g11 : box1.min axis2 < l2.length) (g12 : box1.max axis2 < l2.length)
    (g21 : box2.min axis2 < l2.length) (g22 : box2.max axis2 < l2.length)
    (w1 : box1.min axis1 ≤ box1.max axis1) (w2 : box2.min axis1 ≤ box2.max axis1)
    (w3 : box1.min axis2 ≤ box1.max axis2) (w4 : box2.min axis2 ≤ box2.max axis2) :
    testIntersect2D box1 box2 axis1 axis2 = true ↔
      ((∃ x, valueAt l1 (box1.min axis1) ≤ x ∧ x ≤ valueAt l1 (box1.max axis1) ∧
          valueAt l1 (box2.min axis1) ≤ x ∧ x ≤ valueAt l1 (box2.max axis1)) ∧
       (∃ x, valueAt l2 (box1.min axis2) ≤ x ∧ x ≤ valueAt l2 (box1.max axis2) ∧
          valueAt l2 (box2.min axis2) ≤ x ∧ x ≤ valueAt l2 (box2.max axis2))) := by
  have hle1 := hs1.imp (fun h => le_of_lt h)
  have hle2 := hs2.imp (fun h => le_of_lt h)
  have m1 : valueAt l1 (box1.min axis1) ≤ valueAt l1 (box1.max axis1) :=
    valueAt_mono hle1 h11 h12 w1
  have m2 : valueAt l1 (box2.min axis1) ≤ valueAt l1 (box2.max axis1) :=
    valueAt_mono hle1 h21 h22 w2
  have m3 : valueAt l2 (box1.min axis2) ≤ valueAt l2 (box1.max axis2) :=
    valueAt_mono hle2 g11 g12 w3
  have m4 : valueAt l2 (box2.min axis2) ≤ valueAt l2 (box2.max axis2) :=
    valueAt_mono hle2 g21 g22 w4
  have k1 := valueAt_lt_iff hs1 h22 h11
  have k2 := valueAt_lt_iff hs1 h12 h21
  have k3 := valueAt_lt_iff hs2 g22 g11
  have k4 := valueAt_lt_iff hs2 g12 g21
  rw [interval_intersect_iff m1 m2, interval_intersect_iff m3 m4, testIntersect2D]
  simp only [Bool.not_eq_eq_eq_not, Bool.not_true, Bool.or_eq_false_iff,
    decide_eq_false_iff_not, not_lt]
  omega

theorem claim_C9_witness :
    testIntersect2D wBox1 wBox2 0 1 = true ↔
      ((∃ x, valueAt wEndPoints (wBox1.min 0) ≤ x ∧ x ≤ valueAt wEndPoints (wBox1.max 0) ∧
          valueAt wEndPoints (wBox2.min 0) ≤ x ∧ x ≤ valueAt wEndPoints (wBox2.max 0)) ∧
       (∃ x, valueAt wEndPoints (wBox1.min 1) ≤ x ∧ x ≤ valueAt wEndPoints (wBox1.max 1) ∧
          valueAt wEndPoints (wBox2.min 1) ≤ x ∧ x ≤ valueAt wEndPoints (wBox2.max 1))) :=
  claim_C9 wBox1 wBox2 wEndPoints wEndPoints 0 1
    (by decide) (by decide) (by decide) (by decide) (by decide) (by decide)
    (by decide) (by decide) (by decide) (by decide) (by decide) (by decide)
    (by decide) (by decide)

/-! ### Basic lemmas about the model's helper functions -/

theorem lookupBody_eq_none {b : Nat} {l : List (Nat × AABBInt)} :
    lookupBody b l = none ↔ ∀ p ∈ l, p.1 ≠ b := by
  induction l with
  | nil => simp [lookupBody]
  | cons p rest ih =>
    by_cases h : p.1 = b
    · simp [lookupBody, h]
    · simp [lookupBody, h, ih]

theorem lookupBody_mem {b : Nat} {a : AABBInt} {l : List (Nat × AABBInt)}
    (h : lookupBody b l = some a) : (b, a) ∈ l := by
  induction l with
  | nil => simp [lookupBody] at h
  | cons p rest ih =>
    rw [lookupBody] at h
    by_cases hp : p.1 = b
    · rw [if_pos hp] at h
      have h2 : p.2 = a := Option.some.inj h
      have : p = (b, a) := by
        cases p
        simp only [Prod.mk.injEq]
        exact ⟨hp, h2⟩
      rw [← this]
      exact List.mem_cons_self _ _
    · rw [if_neg hp] at h
      exact List.mem_cons_of_mem _ (ih h)

theorem mem_lookupBody {b : Nat} {a : AABBInt} {l : List (Nat × AABBInt)}
    (hnd : (l.map Prod.fst).Nodup) (h : (b, a) ∈ l) : lookupBody b l = some a := by
  induction l with
  | nil => simp at h
  | cons p rest ih =>
    rw [List.map_cons, List.nodup_cons] at hnd
    rcases List.mem_cons.mp h with heq | hmem
    · rw [lookupBody, ← heq]
      simp
    · have hne : p.1 ≠ b := by
        intro he
        exact hnd.1 (he ▸ List.mem_map_of_mem Prod.fst hmem)
      rw [lookupBody, if_neg hne]
      exact ih hnd.2 hmem

theorem lookupBody_isSome_iff {b : Nat} {l : List (Nat × AABBInt)} :
    (∃ a, lookupBody b l = some a) ↔ ∃ p ∈ l, p.1 = b := by
  constructor
  · rintro ⟨a, ha⟩
    exact ⟨(b, a), lookupBody_mem ha, rfl⟩
  · rintro ⟨p, hp, he⟩
    cases hl : lookupBody b l with
    | some a => exact ⟨a, rfl⟩
    | none => exact absurd he (lookupBody_eq_none.mp hl p hp)

theorem lookupBody_filter_ne {body b : Nat} {l : List (Nat × AABBInt)}
    (hne : b ≠ body) :
    lookupBody b (l.filter (fun p => decide (p.1 ≠ body))) = lookupBody b l := by
  induction l with
  | nil => rfl
  | cons p rest ih =>
    rw [List.filter_cons]
    by_cases hp : p.1 = body
    · rw [if_neg (by simp [hp]), lookupBody, if_neg (by omega), ih]
    · rw [if_pos (by simp [hp]), lookupBody, lookupBody, ih]

theorem lookupBody_filter_self {body : Nat} {l : List (Nat × AABBInt)} :
    lookupBody body (l.filter (fun p => decide (p.1 ≠ body))) = none := by
  rw [lookupBody_eq_none]
  intro p hp
  have := (List.mem_filter.mp hp).2
  simpa using this

theorem normPair_comm (a b : Nat) : normPair a b = normPair b a := by
  unfold normPair
  split_ifs <;> (simp_all [Prod.mk.injEq]; try omega)

theorem normPair_lt {a b : Nat} (h : a ≠ b) : (normPair a b).1 < (normPair a b).2 := by
  unfold normPair
  split_ifs <;> (simp; try omega)

theorem normPair_cases (a b : Nat) :
    ((normPair a b).1 = a ∧ (normPair a b).2 = b) ∨
    ((normPair a b).1 = b ∧ (normPair a b).2 = a) := by
  unfold normPair
  split_ifs <;> simp

theorem normPair_inj {x y z : Nat} (hy : x ≠ y) (hz : x ≠ z)
    (h : normPair x y = normPair x z) : y = z := by
  unfold normPair at h
  split_ifs at h <;> (simp [Prod.mk.injEq] at h; try omega)

theorem normPair_eq_self {x y : Nat} (h : normPair x y = (x, x)) : y = x := by
  unfold normPair at h
  split_ifs at h <;> (simp [Prod.mk.injEq] at h; try omega)

theorem pairMem_iff {pairs : List (Nat × Nat)} {a b : Nat} :
    pairMem pairs a b = true ↔ normPair a b ∈ pairs := by
  simp [pairMem]

theorem pairMem_comm (pairs : List (Nat × Nat)) (a b : Nat) :
    pairMem pairs a b = pairMem pairs b a := by
  unfold pairMem
  rw [normPair_comm]

theorem pairMem_append {P Q : List (Nat × Nat)} {a b : Nat} :
    pairMem (P ++ Q) a b = (pairMem P a b || pairMem Q a b) := by
  simp only [pairMem, List.mem_append]
  by_cases h1 : normPair a b ∈ P <;> by_cases h2 : normPair a b ∈ Q <;> simp [h1, h2]

theorem insertEndPoint_perm (m : EndPoint) (l : List EndPoint) :
    (insertEndPoint m l).Perm (m :: l) := by
  induction l with
  | nil => exact List.Perm.refl _
  | cons x xs ih =>
    rw [insertEndPoint]
    by_cases h : m.value ≤ x.value
    · rw [if_pos h]
    · rw [if_neg h]
      exact (ih.cons x).trans (List.Perm.swap m x xs)

theorem insertEndPoint_sorted {m : EndPoint} {l : List EndPoint}
    (hs : l.Pairwise (fun p q => p.value ≤ q.value)) :
    (insertEndPoint m l).Pairwise (fun p q => p.value ≤ q.value) := by
  induction l with
  | nil => simp [insertEndPoint]
  | cons x xs ih =>
    rw [List.pairwise_cons] at hs
    rw [insertEndPoint]
    by_cases h : m.value ≤ x.value
    · rw [if_pos h]
      refine List.Pairwise.cons ?_ (List.Pairwise.cons hs.1 hs.2)
      intro q hq
      rcases List.mem_cons.mp hq with he | hm
      · subst he; exact h
      · exact le_trans h (hs.1 q hm)
    · rw [if_neg h]
      refine List.Pairwise.cons ?_ (ih hs.2)
      intro q hq
      have hq2 := (insertEndPoint_perm m xs).mem_iff.mp hq
      rcases List.mem_cons.mp hq2 with he | hm
      · subst he; omega
      · exact hs.1 q hm

theorem filter_insertEndPoint {m : EndPoint} {l : List EndPoint}
    {p : EndPoint → Bool} (hm : p m = false) :
    (insertEndPoint m l).filter p = l.filter p := by
  induction l with
  | nil => simp [insertEndPoint, hm]
  | cons x xs ih =>
    rw [insertEndPoint]
    by_cases h : m.value ≤ x.value
    · rw [if_pos h, List.filter_cons, hm]
      simp
    · rw [if_neg h, List.filter_cons, List.filter_cons, ih]

theorem removeMarkers_insertMarkers {b : Nat} {a : AABBInt} {ax : Fin 3}
    {l : List EndPoint} (hl : ∀ m ∈ l, m.boxID ≠ b) :
    removeMarkers b (insertMarkers b a ax l) = l := by
  unfold removeMarkers insertMarkers
  rw [filter_insertEndPoint (by simp [markerMax]),
    filter_insertEndPoint (by simp [markerMin])]
  rw [List.filter_eq_self]
  intro m hm
  simpa using hl m hm

theorem markersOf_boxID {bodies : List (Nat × AABBInt)} {ax : Fin 3}
    {m : EndPoint} (hm : m ∈ markersOf bodies ax) :
    ∃ p ∈ bodies, m.boxID = p.1 ∧
      (m = markerMin p.1 p.2 ax ∨ m = markerMax p.1 p.2 ax) := by
  induction bodies with
  | nil => simp [markersOf] at hm
  | cons p rest ih =>
    rw [markersOf] at hm
    rcases List.mem_cons.mp hm with he | hm2
    · exact ⟨p, List.mem_cons_self _ _, by rw [he]; rfl, Or.inl he⟩
    · rcases List.mem_cons.mp hm2 with he | hm3
      · exact ⟨p, List.mem_cons_self _ _, by rw [he]; rfl, Or.inr he⟩
      · obtain ⟨q, hq, hid, hor⟩ := ih hm3
        exact ⟨q, List.mem_cons_of_mem _ hq, hid, hor⟩

theorem mem_markersOf {bodies : List (Nat × AABBInt)} {ax : Fin 3}
    {p : Nat × AABBInt} (hp : p ∈ bodies) :
    markerMin p.1 p.2 ax ∈ markersOf bodies ax ∧
      markerMax p.1 p.2 ax ∈ markersOf bodies ax := by
  induction bodies with
  | nil => simp at hp
  | cons q rest ih =>
    rw [markersOf]
    rcases List.mem_cons.mp hp with he | hm
    · subst he
      exact ⟨List.mem_cons_self _ _, List.mem_cons_of_mem _ (List.mem_cons_self _ _)⟩
    · obtain ⟨h1, h2⟩ := ih hm
      exact ⟨List.mem_cons_of_mem _ (List.mem_cons_of_mem _ h1),
        List.mem_cons_of_mem _ (List.mem_cons_of_mem _ h2)⟩

theorem removeMarkers_markersOf {b : Nat} {bodies : List (Nat × AABBInt)}
    {ax : Fin 3} :
    removeMarkers b (markersOf bodies ax) =
      markersOf (bodies.filter (fun p => decide (p.1 ≠ b))) ax := by
  induction bodies with
  | nil => rfl
  | cons p rest ih =>
    rw [markersOf, removeMarkers, List.filter_cons, List.filter_cons, List.filter_cons]
    by_cases hp : p.1 = b
    · rw [if_neg (by simp [markerMin, hp]), if_neg (by simp [markerMax, hp]),
        if_neg (by simp [hp])]
      exact ih
    · rw [if_pos (by simp [markerMin, hp]), if_pos (by simp [markerMax, hp]),
        if_pos (by simp [hp]), markersOf]
      rw [removeMarkers] at ih
      rw [ih]

theorem lookupBody_cons {body x : Nat} {aabb : AABBInt} {l : List (Nat × AABBInt)} :
    lookupBody x ((body, aabb) :: l) = if body = x then some aabb else lookupBody x l :=
  rfl

theorem overlap3D_comm (a1 a2 : AABBInt) : overlap3D a1 a2 = overlap3D a2 a1 := by
  unfold overlap3D
  rw [decide_eq_decide]
  constructor <;> intro h ax <;> exact ⟨(h ax).2, (h ax).1⟩

theorem normPair_eq_of_le {a b : Nat} (h : a ≤ b) : normPair a b = (a, b) := by
  unfold normPair
  rw [if_pos h]

theorem normPair_split {x y a b : Nat} (h : normPair x y = normPair a b) :
    (a = x ∧ b = y) ∨ (a = y ∧ b = x) := by
  unfold normPair at h
  split_ifs at h <;> (simp only [Prod.mk.injEq] at h; omega)

theorem keys_nodup_eq {l : List (Nat × AABBInt)} (hnd : (l.map Prod.fst).Nodup)
    {p q : Nat × AABBInt} (hp : p ∈ l) (hq : q ∈ l) (h : p.1 = q.1) : p = q := by
  cases p with
  | mk pk pv =>
    cases q with
    | mk qk qv =>
      simp only at h
      subst h
      have h1 := mem_lookupBody hnd hp
      have h2 := mem_lookupBody hnd hq
      rw [h1] at h2
      rw [Option.some.inj h2]

/-- Every current pair is between two live bodies. -/

theorem pairs_live {S : SAPState} (hI : Inv S) {p : Nat × Nat} (hp : p ∈ S.pairs) :
    p.1 ≠ p.2 ∧ (∃ a1, lookupBody p.1 S.bodies = some a1) ∧
      (∃ a2, lookupBody p.2 S.bodies = some a2) := by
  have hlt := hI.pairsNorm p hp
  have hmem : pairMem S.pairs p.1 p.2 = true := by
    rw [pairMem_iff, normPair_eq_of_le (le_of_lt hlt)]
    exact hp
  obtain ⟨hne, aA, aB, hA, hB, _⟩ := (hI.pairsIff p.1 p.2).mp hmem
  exact ⟨hne, ⟨aA, hA⟩, ⟨aB, hB⟩⟩

theorem addObject_spec {body : Nat} {aabb : AABBInt} {S : SAPState}
    (hnone : lookupBody body S.bodies = none) :
    addObject body aabb S = .ok
      ({ bodies := (body, aabb) :: S.bodies,
         endPoints := fun ax => insertMarkers body aabb ax (S.endPoints ax),
         pairs := S.pairs ++ (S.bodies.filter (fun p => overlap3D aabb p.2)).map
           (fun p => normPair body p.1) },
       (S.bodies.filter (fun p => overlap3D aabb p.2)).map
         (fun p => PairEvent.added body p.1)) := by
  unfold addObject
  rw [hnone]

theorem removeObject_spec {body : Nat} {a : AABBInt} {S : SAPState}
    (hsome : lookupBody body S.bodies = some a) :
    removeObject body S = .ok
      ({ bodies := S.bodies.filter (fun p => decide (p.1 ≠ body)),
         endPoints := fun ax => removeMarkers body (S.endPoints ax),
         pairs := S.pairs.filter (fun p => decide (¬(p.1 = body ∨ p.2 = body))) },
       (S.pairs.filter (fun p => decide (p.1 = body ∨ p.2 = body))).map
         (fun p => PairEvent.removed p.1 p.2)) := by
  unfold removeObject
  rw [hsome]

theorem updateObject_spec {body : Nat} {aabb a : AABBInt} {S : SAPState}
    (hsome : lookupBody body S.bodies = some a) :
    updateObject body aabb S = .ok
      ({ bodies := (body, aabb) :: S.bodies.filter (fun p => decide (p.1 ≠ body)),
         endPoints := fun ax =>
           insertMarkers body aabb ax (removeMarkers body (S.endPoints ax)),
         pairs := S.pairs.filter (fun p => decide (¬(p.1 = body ∨ p.2 = body)))
                  ++ ((S.bodies.filter (fun p => decide (p.1 ≠ body))).filter
                      (fun p => overlap3D aabb p.2)).map (fun p => normPair body p.1) },
       ((S.bodies.filter (fun p => decide (p.1 ≠ body))).filter
           (fun p => pairMem S.pairs body p.1 && !overlap3D aabb p.2)).map
           (fun p => PairEvent.removed body p.1)
         ++ ((S.bodies.filter (fun p => decide (p.1 ≠ body))).filter
           (fun p => !pairMem S.pairs body p.1 && overlap3D aabb p.2)).map
           (fun p => PairEvent.added body p.1)) := by
  unfold updateObject
  rw [hsome]

/-- After `addObject`, the pair set again characterizes exactly the
overlapping pairs of live bodies. -/

theorem addObject_pairsIff {body : Nat} {aabb : AABBInt} {S : SAPState}
    (hI : Inv S) (hnone : lookupBody body S.bodies = none) (a b : Nat) :
    pairMem (S.pairs ++ (S.bodies.filter (fun p => overlap3D aabb p.2)).map
        (fun p => normPair body p.1)) a b = true ↔
      (a ≠ b ∧ ∃ aA aB, lookupBody a ((body, aabb) :: S.bodies) = some aA ∧
        lookupBody b ((body, aabb) :: S.bodies) = some aB ∧
        overlap3D aA aB = true) := by
  have hfresh : ∀ p ∈ S.bodies, p.1 ≠ body := lookupBody_eq_none.mp hnone
  rw [pairMem_append, Bool.or_eq_true]
  constructor
  · rintro (h | h)
    · obtain ⟨hab, aA, aB, hA, hB, hov⟩ := (hI.pairsIff a b).mp h
      have hba : body ≠ a := by
        intro he
        rw [← he] at hA
        rw [hnone] at hA
        exact Option.noConfusion hA
      have hbb : body ≠ b := by
        intro he
        rw [← he] at hB
        rw [hnone] at hB
        exact Option.noConfusion hB
      exact ⟨hab, aA, aB, by rw [lookupBody_cons, if_neg hba]; exact hA,
        by rw [lookupBody_cons, if_neg hbb]; exact hB, hov⟩
    · rw [pairMem_iff] at h
      obtain ⟨p, hp, hnp⟩ := List.mem_map.mp h
      obtain ⟨hpmem, hpov⟩ := List.mem_filter.mp hp
      have hp1 : p.1 ≠ body := hfresh p hpmem
      have hlook : lookupBody p.1 S.bodies = some p.2 := by
        cases p with
        | mk pk pv => exact mem_lookupBody hI.keysNodup hpmem
      rcases normPair_split hnp with ⟨ha, hb⟩ | ⟨ha, hb⟩
      · subst ha; subst hb
        refine ⟨fun he => hp1 he.symm, aabb, p.2, ?_, ?_, hpov⟩
        · rw [lookupBody_cons, if_pos rfl]
        · rw [lookupBody_cons, if_neg (fun he => hp1 he.symm)]
          exact hlook
      · subst ha; subst hb
        refine ⟨hp1, p.2, aabb, ?_, ?_, by rw [overlap3D_comm]; exact hpov⟩
        · rw [lookupBody_cons, if_neg (fun he => hp1 he.symm)]
          exact hlook
        · rw [lookupBody_cons, if_pos rfl]
  · rintro ⟨hab, aA, aB, hA, hB, hov⟩
    rw [lookupBody_cons] at hA hB
    by_cases hba : body = a
    · rw [if_pos hba] at hA
      have haabb : aA = aabb := (Option.some.inj hA).symm
      subst haabb
      have hbb : body ≠ b := fun he => hab (hba ▸ he ▸ rfl)
      rw [if_neg hbb] at hB
      right
      rw [pairMem_iff]
      refine List.mem_map.mpr ⟨(b, aB), List.mem_filter.mpr ⟨lookupBody_mem hB, hov⟩, ?_⟩
      rw [← hba]
    · rw [if_neg hba] at hA
      by_cases hbb : body = b
      · rw [if_pos hbb] at hB
        have haabb : aB = aabb := (Option.some.inj hB).symm
        subst haabb
        right
        rw [pairMem_iff]
        refine List.mem_map.mpr ⟨(a, aA), List.mem_filter.mpr
          ⟨lookupBody_mem hA, by rw [overlap3D_comm]; exact hov⟩, ?_⟩
        rw [← hbb, normPair_comm]
      · rw [if_neg hbb] at hB
        left
        exact (hI.pairsIff a b).mpr ⟨hab, aA, aB, hA, hB, hov⟩

/-- Adding an object preserves the invariant. -/

theorem addObject_inv {body : Nat} {aabb : AABBInt} {S : SAPState}
    (hI : Inv S) (hwf : wfAABB aabb) (hnone : lookupBody body S.bodies = none) :
    Inv { bodies := (body, aabb) :: S.bodies,
          endPoints := fun ax => insertMarkers body aabb ax (S.endPoints ax),
          pairs := S.pairs ++ (S.bodies.filter (fun p => overlap3D aabb p.2)).map
            (fun p => normPair body p.1) } := by
  have hfresh : ∀ p ∈ S.bodies, p.1 ≠ body := lookupBody_eq_none.mp hnone
  refine ⟨?_, ?_, ?_, ?_, ?_, ?_, fun a b => addObject_pairsIff hI hnone a b⟩
  · intro ax
    exact insertEndPoint_sorted (insertEndPoint_sorted (hI.sorted ax))
  · simp only [List.map_cons]
    rw [List.nodup_cons]
    refine ⟨?_, hI.keysNodup⟩
    intro hmem
    obtain ⟨p, hp, he⟩ := List.mem_map.mp hmem
    exact hfresh p hp he
  · intro p hp
    rcases List.mem_cons.mp hp with he | hm
    · rw [he]
      exact hwf
    · exact hI.wfBodies p hm
  · intro ax
    refine (insertEndPoint_perm _ _).trans ?_
    refine (List.Perm.cons _ (insertEndPoint_perm _ _)).trans ?_
    refine (List.Perm.swap _ _ _).trans ?_
    exact List.Perm.cons _ (List.Perm.cons _ (hI.perm ax))
  · intro p hp
    rcases List.mem_append.mp hp with hm | hm
    · exact hI.pairsNorm p hm
    · obtain ⟨q, hq, he⟩ := List.mem_map.mp hm
      rw [← he]
      exact normPair_lt (fun h2 => hfresh q (List.mem_filter.mp hq).1 h2.symm)
  · refine List.Nodup.append hI.pairsNodup ?_ ?_
    · refine List.Nodup.map_on ?_ (List.Nodup.filter _ (hI.keysNodup.of_map _))
      intro p hp q hq he
      have hp1 : p.1 ≠ body := hfresh p (List.mem_filter.mp hp).1
      have hq1 : q.1 ≠ body := hfresh q (List.mem_filter.mp hq).1
      have := normPair_inj (x := body) (fun h2 => hp1 h2.symm) (fun h2 => hq1 h2.symm) he
      exact keys_nodup_eq hI.keysNodup (List.mem_filter.mp hp).1
        (List.mem_filter.mp hq).1 this
    · rw [List.disjoint_left]
      intro p hp hmem
      obtain ⟨hne, ⟨a1, ha1⟩, ⟨a2, ha2⟩⟩ := pairs_live hI hp
      have hp1 : p.1 ≠ body := by
        intro he
        rw [he, hnone] at ha1
        exact Option.noConfusion ha1
      have hp2 : p.2 ≠ body := by
        intro he
        rw [he, hnone] at ha2
        exact Option.noConfusion ha2
      obtain ⟨q, hq, he⟩ := List.mem_map.mp hmem
      rcases normPair_cases body q.1 with ⟨h1, h2⟩ | ⟨h1, h2⟩
      · rw [← he] at hp1
        exact hp1 h1
      · rw [← he] at hp2
        exact hp2 h2

/-- After removing a body, the pair set again characterizes exactly the
overlapping pairs of remaining live bodies. -/

theorem removeObject_pairsIff {body : Nat} {S : SAPState} (hI : Inv S) (a b : Nat) :
    pairMem (S.pairs.filter (fun p => decide (¬(p.1 = body ∨ p.2 = body)))) a b = true ↔
      (a ≠ b ∧ ∃ aA aB,
        lookupBody a (S.bodies.filter (fun p => decide (p.1 ≠ body))) = some aA ∧
        lookupBody b (S.bodies.filter (fun p => decide (p.1 ≠ body))) = some aB ∧
        overlap3D aA aB = true) := by
  rw [pairMem_iff, List.mem_filter]
  constructor
  · rintro ⟨hmem, hcond⟩
    rw [decide_eq_true_eq] at hcond
    push_neg at hcond
    obtain ⟨h1, h2⟩ := hcond
    obtain ⟨hab, aA, aB, hA, hB, hov⟩ := (hI.pairsIff a b).mp (pairMem_iff.mpr hmem)
    have hanb : a ≠ body ∧ b ≠ body := by
      rcases normPair_cases a b with ⟨c1, c2⟩ | ⟨c1, c2⟩
      · exact ⟨by rw [← c1]; exact h1, by rw [← c2]; exact h2⟩
      · exact ⟨by rw [← c2]; exact h2, by rw [← c1]; exact h1⟩
    exact ⟨hab, aA, aB, by rw [lookupBody_filter_ne hanb.1]; exact hA,
      by rw [lookupBody_filter_ne hanb.2]; exact hB, hov⟩
  · rintro ⟨hab, aA, aB, hA, hB, hov⟩
    have hanb : a ≠ body := by
      intro he
      rw [he, lookupBody_filter_self] at hA
      exact Option.noConfusion hA
    have hbnb : b ≠ body := by
      intro he
      rw [he, lookupBody_filter_self] at hB
      exact Option.noConfusion hB
    rw [lookupBody_filter_ne hanb] at hA
    rw [lookupBody_filter_ne hbnb] at hB
    refine ⟨pairMem_iff.mp ((hI.pairsIff a b).mpr ⟨hab, aA, aB, hA, hB, hov⟩), ?_⟩
    rw [decide_eq_true_eq]
    push_neg
    rcases normPair_cases a b with ⟨c1, c2⟩ | ⟨c1, c2⟩
    · exact ⟨by rw [c1]; exact hanb, by rw [c2]; exact hbnb⟩
    · exact ⟨by rw [c1]; exact hbnb, by rw [c2]; exact hanb⟩

/-- Removing a body preserves the invariant. -/

theorem removeObject_inv {body : Nat} {S : SAPState} (hI : Inv S) :
    Inv { bodies := S.bodies.filter (fun p => decide (p.1 ≠ body)),
          endPoints := fun ax => removeMarkers body (S.endPoints ax),
          pairs := S.pairs.filter (fun p => decide (¬(p.1 = body ∨ p.2 = body))) } := by
  refine ⟨?_, ?_, ?_, ?_, ?_, ?_, fun a b => removeObject_pairsIff hI a b⟩
  · intro ax
    exact List.Pairwise.sublist (List.filter_sublist _) (hI.sorted ax)
  · exact List.Nodup.sublist (List.Sublist.map _ (List.filter_sublist _)) hI.keysNodup
  · intro p hp
    exact hI.wfBodies p (List.mem_filter.mp hp).1
  · intro ax
    rw [← removeMarkers_markersOf]
    exact (hI.perm ax).filter _
  · intro p hp
    exact hI.pairsNorm p (List.mem_filter.mp hp).1
  · exact List.Nodup.filter _ hI.pairsNodup

/-- Updating a body preserves the invariant: its effect on state content is
that of a removal followed by an insertion with the new AABB. -/

theorem updateObject_inv {body : Nat} {aabb : AABBInt} {S : SAPState}
    (hI : Inv S) (hwf : wfAABB aabb) :
    Inv { bodies := (body, aabb) :: S.bodies.filter (fun p => decide (p.1 ≠ body)),
          endPoints := fun ax =>
            insertMarkers body aabb ax (removeMarkers body (S.endPoints ax)),
          pairs := S.pairs.filter (fun p => decide (¬(p.1 = body ∨ p.2 = body)))
                   ++ ((S.bodies.filter (fun p => decide (p.1 ≠ body))).filter
                       (fun p => overlap3D aabb p.2)).map (fun p => normPair body p.1) } :=
  addObject_inv (removeObject_inv hI) hwf lookupBody_filter_self

/-- A single call preserves the invariant. -/

theorem step_inv {S : SAPState} {op : Op} (hI : Inv S) (hwf : wfOp op) :
    Inv (step S op).1 := by
  cases op with
  | add b a =>
    simp only [step]
    cases hl : lookupBody b S.bodies with
    | some x =>
      have he : addObject b a S = .error .duplicateBody := by
        unfold addObject
        rw [hl]
      rw [he]
      exact hI
    | none =>
      rw [addObject_spec hl]
      exact addObject_inv hI hwf hl
  | remove b =>
    simp only [step]
    cases hl : lookupBody b S.bodies with
    | none =>
      have he : removeObject b S = .error .unknownBody := by
        unfold removeObject
        rw [hl]
      rw [he]
      exact hI
    | some x =>
      rw [removeObject_spec hl]
      exact removeObject_inv hI
  | update b a =>
    simp only [step]
    cases hl : lookupBody b S.bodies with
    | none =>
      have he : updateObject b a S = .error .unknownBody := by
        unfold updateObject
        rw [hl]
      rw [he]
      exact hI
    | some x =>
      rw [updateObject_spec hl]
      exact updateObject_inv hI hwf

/-- The empty structure satisfies the invariant. -/

theorem emptyState_inv : Inv emptyState := by
  refine ⟨?_, ?_, ?_, ?_, ?_, ?_, ?_⟩
  · intro ax
    simp [emptyState]
  · simp [emptyState]
  · intro p hp
    simp [emptyState] at hp
  · intro ax
    simp [emptyState, markersOf]
  · intro p hp
    simp [emptyState] at hp
  · simp [emptyState]
  · intro a b
    simp [emptyState, pairMem, lookupBody]

/-- Any well-formed call sequence preserves the invariant. -/

theorem run_inv {S : SAPState} {ops : List Op} (hI : Inv S)
    (hwf : ∀ op ∈ ops, wfOp op) : Inv (run S ops).1 := by
  induction ops generalizing S with
  | nil => exact hI
  | cons op ops ih =>
    exact ih (step_inv hI (hwf op (List.mem_cons_self _ _)))
      (fun o ho => hwf o (List.mem_cons_of_mem _ ho))

theorem reachable_inv {S : SAPState} (h : Reachable S) : Inv S := by
  obtain ⟨ops, hwf, hrun⟩ := h
  rw [← hrun]
  exact run_inv emptyState_inv hwf

/-- Claim C3 (spec-modelled): after any finite sequence of well-formed calls
starting from the empty structure, every per-axis end-point array is sorted
ascending by value, and every live box's min end-point value on an axis is
at most its max end-point value on that axis. -/

theorem claim_C3 (ops : List Op) (hwf : ∀ op ∈ ops, wfOp op) :
    (∀ ax, ((run emptyState ops).1.endPoints ax).Pairwise
      (fun p q => p.value ≤ q.value)) ∧
    (∀ ax, ∀ m1 ∈ (run emptyState ops).1.endPoints ax,
      ∀ m2 ∈ (run emptyState ops).1.endPoints ax,
      m1.boxID = m2.boxID → m1.isMin = true → m2.isMin = false →
      m1.value ≤ m2.value) := by
  have hI := run_inv emptyState_inv hwf
  refine ⟨hI.sorted, ?_⟩
  intro ax m1 hm1 m2 hm2 hid h1 h2
  obtain ⟨p, hp, hpid, hpor⟩ := markersOf_boxID ((hI.perm ax).mem_iff.mp hm1)
  obtain ⟨q, hq, hqid, hqor⟩ := markersOf_boxID ((hI.perm ax).mem_iff.mp hm2)
  have hm1e : m1 = markerMin p.1 p.2 ax := by
    rcases hpor with h | h
    · exact h
    · rw [h] at h1
      exact absurd h1 (by simp [markerMax])
  have hm2e : m2 = markerMax q.1 q.2 ax := by
    rcases hqor with h | h
    · rw [h] at h2
      exact absurd h2 (by simp [markerMin])
    · exact h
  have hpq : p = q := keys_nodup_eq hI.keysNodup hp hq (by rw [← hpid, ← hqid, hid])
  subst hpq
  rw [hm1e, hm2e]
  exact hI.wfBodies p hp ax

theorem wOps_wf : ∀ op ∈ wOps, wfOp op := by
  intro op hop
  simp only [wOps, List.mem_cons, List.not_mem_nil, or_false] at hop
  rcases hop with h | h | h | h <;> subst h <;>
    simp [wfOp, wfAABB, wAABB1, wAABB2, wAABB3]

theorem claim_C3_witness :
    (∀ ax, ((run emptyState wOps).1.endPoints ax).Pairwise
      (fun p q => p.value ≤ q.value)) ∧
    (∀ ax, ∀ m1 ∈ (run emptyState wOps).1.endPoints ax,
      ∀ m2 ∈ (run emptyState wOps).1.endPoints ax,
      m1.boxID = m2.boxID → m1.isMin = true → m2.isMin = false →
      m1.value ≤ m2.value) :=
  claim_C3 wOps wOps_wf

/-- Claim C6 (spec-modelled): on any reachable state, adding an untracked body
and immediately removing it restores the previous state exactly — same
bodies, same end-point sequences on every axis, same pair set. -/

theorem claim_C6 (S : SAPState) (hS : Reachable S) (b : Nat) (aabb : AABBInt)
    (hb : lookupBody b S.bodies = none) :
    ∃ r1 : SAPState × List PairEvent, addObject b aabb S = .ok r1 ∧
      ∃ r2 : SAPState × List PairEvent, removeObject b r1.1 = .ok r2 ∧
        r2.1 = S := by
  have hI := reachable_inv hS
  have hfresh : ∀ p ∈ S.bodies, p.1 ≠ b := lookupBody_eq_none.mp hb
  have hnomark : ∀ ax, ∀ m ∈ S.endPoints ax, m.boxID ≠ b := by
    intro ax m hm
    obtain ⟨p, hp, hid, _⟩ := markersOf_boxID ((hI.perm ax).mem_iff.mp hm)
    rw [hid]
    exact hfresh p hp
  have hnopair : ∀ p ∈ S.pairs, ¬(p.1 = b ∨ p.2 = b) := by
    intro p hp
    obtain ⟨_, ⟨a1, ha1⟩, ⟨a2, ha2⟩⟩ := pairs_live hI hp
    rintro (he | he)
    · rw [he, hb] at ha1
      exact Option.noConfusion ha1
    · rw [he, hb] at ha2
      exact Option.noConfusion ha2
  have hl1 : lookupBody b ((b, aabb) :: S.bodies) = some aabb := by
    rw [lookupBody_cons, if_pos rfl]
  refine ⟨_, addObject_spec hb, _, removeObject_spec hl1, ?_⟩
  cases S with
  | mk Sb Se Sp =>
    simp only [SAPState.mk.injEq]
    refine ⟨?_, ?_, ?_⟩
    · rw [List.filter_cons, if_neg (by simp)]
      rw [List.filter_eq_self]
      intro p hp
      simpa using hfresh p hp
    · funext ax
      exact removeMarkers_insertMarkers (hnomark ax)
    · rw [List.filter_append]
      have h1 : Sp.filter (fun p => decide (¬(p.1 = b ∨ p.2 = b))) = Sp := by
        rw [List.filter_eq_self]
        intro p hp
        simpa using hnopair p hp
      have h2 : ((Sb.filter (fun p => overlap3D aabb p.2)).map
          (fun p => normPair b p.1)).filter
            (fun p => decide (¬(p.1 = b ∨ p.2 = b))) = [] := by
        rw [List.filter_eq_nil_iff]
        intro q hq
        obtain ⟨p, hp, he⟩ := List.mem_map.mp hq
        rcases normPair_cases b p.1 with ⟨c1, c2⟩ | ⟨c1, c2⟩ <;>
          simp [← he, c1, c2]
      rw [h1, h2, List.append_nil]

theorem claim_C6_witness :
    ∃ r1 : SAPState × List PairEvent, addObject 5 wAABB1 emptyState = .ok r1 ∧
      ∃ r2 : SAPState × List PairEvent, removeObject 5 r1.1 = .ok r2 ∧
        r2.1 = emptyState :=
  claim_C6 emptyState ⟨[], by intro op hop; simp at hop, rfl⟩ 5 wAABB1 rfl

/-- Claim C7 (spec-modelled): update or removal of an untracked body reports
the unknown-body error, adding an already-tracked body reports the
duplicate-body error, and the two error conditions are distinct; an
erroneous call is never a silent no-op success. -/

theorem claim_C7 (S : SAPState) (b : Nat) (aabb : AABBInt) :
    (lookupBody b S.bodies = none →
      updateObject b aabb S = .error .unknownBody ∧
      removeObject b S = .error .unknownBody) ∧
    (∀ x, lookupBody b S.bodies = some x →
      addObject b aabb S = .error .duplicateBody) ∧
    SAPError.unknownBody ≠ SAPError.duplicateBody := by
  refine ⟨?_, ?_, by decide⟩
  · intro h
    constructor
    · unfold updateObject
      rw [h]
    · unfold removeObject
      rw [h]
  · intro x h
    unfold addObject
    rw [h]

theorem claim_C7_witness :
    updateObject 0 wAABB1 emptyState = Except.error SAPError.unknownBody ∧
    removeObject 0 emptyState = Except.error SAPError.unknownBody :=
  (claim_C7 emptyState 0 wAABB1).1 rfl

theorem projTrace_append (p : Nat × Nat) (t1 t2 : List PairEvent) :
    projTrace p (t1 ++ t2) = projTrace p t1 ++ projTrace p t2 :=
  List.filterMap_append t1 t2 _

/-- Extending an alternating projected trace by the (at most one) event of
one call keeps it alternating and keeps the last-event/pair-set link, given
that an added event fires only for a pair not in the set, a removed event
only for a pair in the set, and the new set reflects the transition. -/

theorem traceInv_extend {pl el : List Bool} {P P' : List (Nat × Nat)}
    {p : Nat × Nat} {A R : Prop}
    (halt : Alternating pl)
    (hlast : pl.getLast? = some true ↔ p ∈ P)
    (hlen : el.length ≤ 1)
    (htrue : true ∈ el ↔ A)
    (hfalse : false ∈ el ↔ R)
    (hCa : A → p ∉ P)
    (hCr : R → p ∈ P)
    (hP' : p ∈ P' ↔ ((p ∈ P ∧ ¬R) ∨ A)) :
    Alternating (pl ++ el) ∧ ((pl ++ el).getLast? = some true ↔ p ∈ P') := by
  rcases el with _ | ⟨x, el2⟩
  · rw [List.append_nil]
    have hca : ¬A := fun h => List.not_mem_nil true (htrue.mpr h)
    have hcr : ¬R := fun h => List.not_mem_nil false (hfalse.mpr h)
    refine ⟨halt, ?_⟩
    rw [hlast, hP']
    constructor
    · intro h
      exact Or.inl ⟨h, hcr⟩
    · rintro (⟨h, _⟩ | h)
      · exact h
      · exact absurd h hca
  · have hel2 : el2 = [] := by
      cases el2 with
      | nil => rfl
      | cons y t => simp at hlen
    subst hel2
    cases x
    · have hCr' : R := hfalse.mp (by simp)
      have hpP : p ∈ P := hCr hCr'
      have hlastT : pl.getLast? = some true := hlast.mpr hpP
      constructor
      · rw [Alternating, List.chain'_append]
        refine ⟨halt, List.chain'_singleton _, ?_⟩
        intro y hy z hz
        rw [hlastT] at hy
        have hy' : y = true := by simpa using hy
        have hz' : z = false := by simpa using hz
        rw [hy', hz']
        simp
      · rw [List.getLast?_concat]
        constructor
        · intro h
          exact absurd h (by simp)
        · intro h
          rcases hP'.mp h with ⟨_, hc⟩ | hc
          · exact absurd hCr' hc
          · exact absurd hpP (hCa hc)
    · have hCa' : A := htrue.mp (by simp)
      have hpnP : p ∉ P := hCa hCa'
      have hlastne : pl.getLast? ≠ some true := fun h => hpnP (hlast.mp h)
      constructor
      · rw [Alternating, List.chain'_append]
        refine ⟨halt, List.chain'_singleton _, ?_⟩
        intro y hy z hz
        have hz' : z = true := by simpa using hz
        rw [hz']
        intro hyt
        rw [hyt] at hy
        exact hlastne (by simpa [Option.mem_def] using hy)
      · rw [List.getLast?_concat]
        constructor
        · intro _
          exact hP'.mpr (Or.inr hCa')
        · intro _
          rfl

theorem projEvent_added_eq {p : Nat × Nat} {a b : Nat} {x : Bool} :
    projEvent p (.added a b) = some x ↔ (normPair a b = p ∧ x = true) := by
  rw [projEvent]
  split_ifs with h <;> simp [h]

theorem projEvent_removed_eq {p : Nat × Nat} {a b : Nat} {x : Bool} :
    projEvent p (.removed a b) = some x ↔ (normPair a b = p ∧ x = false) := by
  rw [projEvent]
  split_ifs with h <;> simp [h]

theorem filterMap_length_le_one {α β : Type} {f : α → Option β} {l : List α}
    (h : l.Pairwise (fun x y => ¬((f x).isSome ∧ (f y).isSome))) :
    (l.filterMap f).length ≤ 1 := by
  induction l with
  | nil => simp
  | cons a t ih =>
    rw [List.pairwise_cons] at h
    rw [List.filterMap_cons]
    cases hfa : f a with
    | none => exact ih h.2
    | some b =>
      have ht : t.filterMap f = [] := by
        rw [List.filterMap_eq_nil_iff]
        intro x hx
        by_contra hfx
        exact h.1 x hx ⟨by rw [hfa]; rfl, Option.isSome_iff_ne_none.mpr hfx⟩
      rw [ht]
      simp

theorem keys_pairwise {l : List (Nat × AABBInt)} (h : (l.map Prod.fst).Nodup) :
    l.Pairwise (fun p q => p.1 ≠ q.1) := by
  induction l with
  | nil => simp
  | cons a t ih =>
    rw [List.map_cons, List.nodup_cons] at h
    rw [List.pairwise_cons]
    refine ⟨?_, ih h.2⟩
    intro q hq he
    exact h.1 (he ▸ List.mem_map_of_mem Prod.fst hq)

/-- When a body is untracked, no current pair involves it. -/

theorem pairs_not_involve {body : Nat} {S : SAPState} (hI : Inv S)
    (hnone : lookupBody body S.bodies = none) {p : Nat × Nat} (hp : p ∈ S.pairs) :
    p.1 ≠ body ∧ p.2 ≠ body := by
  obtain ⟨_, ⟨a1, ha1⟩, ⟨a2, ha2⟩⟩ := pairs_live hI hp
  constructor
  · intro he
    rw [he, hnone] at ha1
    exact Option.noConfusion ha1
  · intro he
    rw [he, hnone] at ha2
    exact Option.noConfusion ha2

/-- Adding an object preserves the trace invariant. -/

theorem addObject_traceInv {body : Nat} {aabb : AABBInt} {S : SAPState}
    {tr : List PairEvent} (hI : Inv S)
    (hnone : lookupBody body S.bodies = none) (hT : TraceInv tr S) :
    TraceInv (tr ++ (S.bodies.filter (fun q => overlap3D aabb q.2)).map
        (fun q => PairEvent.added body q.1))
      { bodies := (body, aabb) :: S.bodies,
        endPoints := fun ax => insertMarkers body aabb ax (S.endPoints ax),
        pairs := S.pairs ++ (S.bodies.filter (fun q => overlap3D aabb q.2)).map
          (fun q => normPair body q.1) } := by
  intro p
  obtain ⟨halt, hlast⟩ := hT p
  rw [projTrace_append]
  have hfresh : ∀ q ∈ S.bodies, q.1 ≠ body := lookupBody_eq_none.mp hnone
  have hproj : projTrace p ((S.bodies.filter (fun q => overlap3D aabb q.2)).map
      (fun q => PairEvent.added body q.1)) =
      (S.bodies.filter (fun q => overlap3D aabb q.2)).filterMap
        (fun q => projEvent p (.added body q.1)) := by
    rw [projTrace, List.filterMap_map]
    rfl
  refine traceInv_extend
    (A := p ∈ (S.bodies.filter (fun q => overlap3D aabb q.2)).map
      (fun q => normPair body q.1))
    (R := False) halt hlast ?_ ?_ ?_ ?_ ?_ ?_
  · rw [hproj]
    apply filterMap_length_le_one
    have hkp : (S.bodies.filter (fun q => overlap3D aabb q.2)).Pairwise
        (fun a b => a.1 ≠ b.1) := (keys_pairwise hI.keysNodup).filter _
    refine hkp.imp_of_mem ?_
    intro q1 q2 hq1 hq2 hne hss
    obtain ⟨hs1, hs2⟩ := hss
    obtain ⟨x1, he1⟩ := Option.isSome_iff_exists.mp hs1
    obtain ⟨x2, he2⟩ := Option.isSome_iff_exists.mp hs2
    obtain ⟨hn1, _⟩ := projEvent_added_eq.mp he1
    obtain ⟨hn2, _⟩ := projEvent_added_eq.mp he2
    have h1b : q1.1 ≠ body := hfresh q1 (List.mem_filter.mp hq1).1
    have h2b : q2.1 ≠ body := hfresh q2 (List.mem_filter.mp hq2).1
    exact hne (normPair_inj (fun h => h1b h.symm) (fun h => h2b h.symm)
      (hn1.trans hn2.symm))
  · rw [hproj]
    constructor
    · intro h
      obtain ⟨q, hq, he⟩ := List.mem_filterMap.mp h
      obtain ⟨hn, _⟩ := projEvent_added_eq.mp he
      exact List.mem_map.mpr ⟨q, hq, hn⟩
    · intro h
      obtain ⟨q, hq, he⟩ := List.mem_map.mp h
      exact List.mem_filterMap.mpr ⟨q, hq, projEvent_added_eq.mpr ⟨he, rfl⟩⟩
  · rw [hproj]
    constructor
    · intro h
      obtain ⟨q, hq, he⟩ := List.mem_filterMap.mp h
      obtain ⟨_, hx⟩ := projEvent_added_eq.mp he
      exact Bool.noConfusion hx
    · exact fun h => h.elim
  · intro h hp
    obtain ⟨q, hq, he⟩ := List.mem_map.mp h
    obtain ⟨hne1, hne2⟩ := pairs_not_involve hI hnone hp
    rcases normPair_cases body q.1 with ⟨c1, c2⟩ | ⟨c1, c2⟩
    · rw [← he] at hne1
      exact hne1 c1
    · rw [← he] at hne2
      exact hne2 c2
  · exact fun h => h.elim
  · rw [List.mem_append]
    constructor
    · rintro (h | h)
      · exact Or.inl ⟨h, not_false⟩
      · exact Or.inr h
    · rintro (⟨h, _⟩ | h)
      · exact Or.inl h
      · exact Or.inr h

/-- Removing an object preserves the trace invariant. -/

theorem removeObject_traceInv {body : Nat} {S : SAPState}
    {tr : List PairEvent} (hI : Inv S) (hT : TraceInv tr S) :
    TraceInv (tr ++ (S.pairs.filter (fun q => decide (q.1 = body ∨ q.2 = body))).map
        (fun q => PairEvent.removed q.1 q.2))
      { bodies := S.bodies.filter (fun q => decide (q.1 ≠ body)),
        endPoints := fun ax => removeMarkers body (S.endPoints ax),
        pairs := S.pairs.filter (fun q => decide (¬(q.1 = body ∨ q.2 = body))) } := by
  intro p
  obtain ⟨halt, hlast⟩ := hT p
  rw [projTrace_append]
  have hnorm : ∀ q ∈ S.pairs.filter (fun q => decide (q.1 = body ∨ q.2 = body)),
      normPair q.1 q.2 = q := by
    intro q hq
    exact normPair_eq_of_le (le_of_lt (hI.pairsNorm q (List.mem_filter.mp hq).1))
  have hproj : projTrace p ((S.pairs.filter
      (fun q => decide (q.1 = body ∨ q.2 = body))).map
        (fun q => PairEvent.removed q.1 q.2)) =
      (S.pairs.filter (fun q => decide (q.1 = body ∨ q.2 = body))).filterMap
        (fun q => projEvent p (.removed q.1 q.2)) := by
    rw [projTrace, List.filterMap_map]
    rfl
  refine traceInv_extend (A := False)
    (R := p ∈ S.pairs.filter (fun q => decide (q.1 = body ∨ q.2 = body)))
    halt hlast ?_ ?_ ?_ ?_ ?_ ?_
  · rw [hproj]
    apply filterMap_length_le_one
    have hnd : (S.pairs.filter (fun q => decide (q.1 = body ∨ q.2 = body))).Pairwise
        (fun a b => a ≠ b) := List.Nodup.filter _ hI.pairsNodup
    refine hnd.imp_of_mem ?_
    intro q1 q2 hq1 hq2 hne hss
    obtain ⟨hs1, hs2⟩ := hss
    obtain ⟨x1, he1⟩ := Option.isSome_iff_exists.mp hs1
    obtain ⟨x2, he2⟩ := Option.isSome_iff_exists.mp hs2
    obtain ⟨hn1, _⟩ := projEvent_removed_eq.mp he1
    obtain ⟨hn2, _⟩ := projEvent_removed_eq.mp he2
    rw [hnorm q1 hq1] at hn1
    rw [hnorm q2 hq2] at hn2
    exact hne (hn1.trans hn2.symm)
  · rw [hproj]
    constructor
    · intro h
      obtain ⟨q, hq, he⟩ := List.mem_filterMap.mp h
      obtain ⟨_, hx⟩ := projEvent_removed_eq.mp he
      exact Bool.noConfusion hx
    · exact fun h => h.elim
  · rw [hproj]
    constructor
    · intro h
      obtain ⟨q, hq, he⟩ := List.mem_filterMap.mp h
      obtain ⟨hn, _⟩ := projEvent_removed_eq.mp he
      rw [hnorm q hq] at hn
      rw [← hn]
      exact hq
    · intro h
      refine List.mem_filterMap.mpr ⟨p, h, ?_⟩
      exact projEvent_removed_eq.mpr ⟨hnorm p h, rfl⟩
  · exact fun h => h.elim
  · intro h
    exact (List.mem_filter.mp h).1
  · rw [List.mem_filter, List.mem_filter, decide_eq_true_eq, decide_eq_true_eq]
    tauto

theorem not_mem_normPair_map {body : Nat} {p : Nat × Nat}
    (hinv : ¬(p.1 = body ∨ p.2 = body)) {l : List (Nat × AABBInt)} :
    p ∉ l.map (fun q => normPair body q.1) := by
  intro h
  obtain ⟨q, hq, he⟩ := List.mem_map.mp h
  rcases normPair_cases body q.1 with ⟨c1, c2⟩ | ⟨c1, c2⟩
  · exact hinv (Or.inl (by rw [← he, c1]))
  · exact hinv (Or.inr (by rw [← he, c2]))

/-- A normalized pair that involves `body` is `normPair body c` for its
other, distinct component `c`. -/

theorem pair_other_component {body : Nat} {p : Nat × Nat} (hlt : p.1 < p.2)
    (hinv : p.1 = body ∨ p.2 = body) :
    ∃ c, c ≠ body ∧ p = normPair body c := by
  rcases hinv with h1 | h1
  · refine ⟨p.2, by omega, ?_⟩
    rw [normPair_eq_of_le (by omega), ← h1]
  · refine ⟨p.1, by omega, ?_⟩
    unfold normPair
    rw [if_neg (by omega), ← h1]

/-- Characterization of the pair set after `updateObject`: a pair is in the
new set iff it was there and no pair-removed event fired for it, or a
pair-added event fired for it. -/

theorem update_pairs_char {body : Nat} {aabb : AABBInt} {S : SAPState}
    (hI : Inv S) (p : Nat × Nat) :
    p ∈ S.pairs.filter (fun q => decide (¬(q.1 = body ∨ q.2 = body)))
        ++ ((S.bodies.filter (fun q => decide (q.1 ≠ body))).filter
            (fun q => overlap3D aabb q.2)).map (fun q => normPair body q.1) ↔
      ((p ∈ S.pairs ∧
        ¬(p ∈ ((S.bodies.filter (fun q => decide (q.1 ≠ body))).filter
            (fun q => pairMem S.pairs body q.1 && !overlap3D aabb q.2)).map
              (fun q => normPair body q.1))) ∨
       p ∈ ((S.bodies.filter (fun q => decide (q.1 ≠ body))).filter
            (fun q => !pairMem S.pairs body q.1 && overlap3D aabb q.2)).map
              (fun q => normPair body q.1)) := by
  have hOthers : ∀ q ∈ S.bodies.filter (fun q => decide (q.1 ≠ body)),
      q.1 ≠ body := by
    intro q hq
    have := (List.mem_filter.mp hq).2
    simpa using this
  have hOthersNodup :
      ((S.bodies.filter (fun q => decide (q.1 ≠ body))).map Prod.fst).Nodup :=
    List.Nodup.sublist (List.Sublist.map _ (List.filter_sublist _)) hI.keysNodup
  rw [List.mem_append, List.mem_filter, decide_eq_true_eq]
  by_cases hinv : p.1 = body ∨ p.2 = body
  · constructor
    · rintro (h | h)
      · exact absurd hinv h.2
      · obtain ⟨q, hq, he⟩ := List.mem_map.mp h
        obtain ⟨hqo, hqov⟩ := List.mem_filter.mp hq
        by_cases hpm : pairMem S.pairs body q.1 = true
        · left
          refine ⟨?_, ?_⟩
          · rw [pairMem_iff, he] at hpm
            exact hpm
          · intro hc
            obtain ⟨q2, hq2, he2⟩ := List.mem_map.mp hc
            obtain ⟨hq2o, hq2f⟩ := List.mem_filter.mp hq2
            have hq1b : q.1 ≠ body := hOthers q hqo
            have hq2b : q2.1 ≠ body := hOthers q2 hq2o
            have hkey : q2.1 = q.1 := normPair_inj (fun h2 => hq2b h2.symm)
              (fun h2 => hq1b h2.symm) (he2.trans he.symm)
            have hqq : q2 = q := keys_nodup_eq hOthersNodup hq2o hqo hkey
            rw [hqq, Bool.and_eq_true, Bool.not_eq_true'] at hq2f
            rw [hqov] at hq2f
            exact Bool.noConfusion hq2f.2
        · right
          refine List.mem_map.mpr ⟨q, List.mem_filter.mpr ⟨hqo, ?_⟩, he⟩
          rw [Bool.and_eq_true, Bool.not_eq_true']
          exact ⟨Bool.eq_false_iff.mpr hpm, hqov⟩
    · rintro (⟨hp, hnr⟩ | h)
      · right
        obtain ⟨c, hcb, hpc⟩ := pair_other_component (hI.pairsNorm p hp) hinv
        have hpm : pairMem S.pairs body c = true := by
          rw [pairMem_iff, ← hpc]
          exact hp
        obtain ⟨hne, aA, aB, hA, hB, hov⟩ := (hI.pairsIff body c).mp hpm
        have hcO : (c, aB) ∈ S.bodies.filter (fun q => decide (q.1 ≠ body)) :=
          List.mem_filter.mpr ⟨lookupBody_mem hB, by simp [hcb]⟩
        by_cases hovn : overlap3D aabb aB = true
        · exact List.mem_map.mpr ⟨(c, aB), List.mem_filter.mpr ⟨hcO, hovn⟩, hpc.symm⟩
        · exfalso
          apply hnr
          refine List.mem_map.mpr ⟨(c, aB), List.mem_filter.mpr ⟨hcO, ?_⟩, hpc.symm⟩
          rw [Bool.and_eq_true, Bool.not_eq_true']
          exact ⟨hpm, Bool.eq_false_iff.mpr hovn⟩
      · right
        obtain ⟨q, hq, he⟩ := List.mem_map.mp h
        obtain ⟨hqo, hqf⟩ := List.mem_filter.mp hq
        rw [Bool.and_eq_true] at hqf
        exact List.mem_map.mpr ⟨q, List.mem_filter.mpr ⟨hqo, hqf.2⟩, he⟩
  · constructor
    · rintro (h | h)
      · exact Or.inl ⟨h.1, not_mem_normPair_map hinv⟩
      · exact absurd h (not_mem_normPair_map hinv)
    · rintro (⟨hp, _⟩ | h)
      · exact Or.inl ⟨hp, hinv⟩
      · exact absurd h (not_mem_normPair_map hinv)

/-- Updating an object preserves the trace invariant. -/

theorem updateObject_traceInv {body : Nat} {aabb : AABBInt} {S : SAPState}
    {tr : List PairEvent} (hI : Inv S) (hT : TraceInv tr S) :
    TraceInv (tr ++
      (((S.bodies.filter (fun q => decide (q.1 ≠ body))).filter
          (fun q => pairMem S.pairs body q.1 && !overlap3D aabb q.2)).map
          (fun q => PairEvent.removed body q.1)
        ++ ((S.bodies.filter (fun q => decide (q.1 ≠ body))).filter
          (fun q => !pairMem S.pairs body q.1 && overlap3D aabb q.2)).map
          (fun q => PairEvent.added body q.1)))
      { bodies := (body, aabb) :: S.bodies.filter (fun q => decide (q.1 ≠ body)),
        endPoints := fun ax =>
          insertMarkers body aabb ax (removeMarkers body (S.endPoints ax)),
        pairs := S.pairs.filter (fun q => decide (¬(q.1 = body ∨ q.2 = body)))
                 ++ ((S.bodies.filter (fun q => decide (q.1 ≠ body))).filter
                     (fun q => overlap3D aabb q.2)).map
                     (fun q => normPair body q.1) } := by
  intro p
  obtain ⟨halt, hlast⟩ := hT p
  rw [projTrace_append]
  have hOthers : ∀ q ∈ S.bodies.filter (fun q => decide (q.1 ≠ body)),
      q.1 ≠ body := by
    intro q hq
    have := (List.mem_filter.mp hq).2
    simpa using this
  have hOthersNodup :
      ((S.bodies.filter (fun q => decide (q.1 ≠ body))).map Prod.fst).Nodup :=
    List.Nodup.sublist (List.Sublist.map _ (List.filter_sublist _)) hI.keysNodup
  have hOthersPW : (S.bodies.filter (fun q => decide (q.1 ≠ body))).Pairwise
      (fun a b => a.1 ≠ b.1) := (keys_pairwise hI.keysNodup).filter _
  have hprojR : projTrace p (((S.bodies.filter (fun q => decide (q.1 ≠ body))).filter
      (fun q => pairMem S.pairs body q.1 && !overlap3D aabb q.2)).map
      (fun q => PairEvent.removed body q.1)) =
      ((S.bodies.filter (fun q => decide (q.1 ≠ body))).filter
        (fun q => pairMem S.pairs body q.1 && !overlap3D aabb q.2)).filterMap
        (fun q => projEvent p (.removed body q.1)) := by
    rw [projTrace, List.filterMap_map]
    rfl
  have hprojA : projTrace p (((S.bodies.filter (fun q => decide (q.1 ≠ body))).filter
      (fun q => !pairMem S.pairs body q.1 && overlap3D aabb q.2)).map
      (fun q => PairEvent.added body q.1)) =
      ((S.bodies.filter (fun q => decide (q.1 ≠ body))).filter
        (fun q => !pairMem S.pairs body q.1 && overlap3D aabb q.2)).filterMap
        (fun q => projEvent p (.added body q.1)) := by
    rw [projTrace, List.filterMap_map]
    rfl
  refine traceInv_extend
    (A := p ∈ ((S.bodies.filter (fun q => decide (q.1 ≠ body))).filter
      (fun q => !pairMem S.pairs body q.1 && overlap3D aabb q.2)).map
      (fun q => normPair body q.1))
    (R := p ∈ ((S.bodies.filter (fun q => decide (q.1 ≠ body))).filter
      (fun q => pairMem S.pairs body q.1 && !overlap3D aabb q.2)).map
      (fun q => normPair body q.1))
    halt hlast ?_ ?_ ?_ ?_ ?_ ?_
  · rw [projTrace_append, List.length_append]
    have hlenR : (projTrace p (((S.bodies.filter (fun q => decide (q.1 ≠ body))).filter
        (fun q => pairMem S.pairs body q.1 && !overlap3D aabb q.2)).map
        (fun q => PairEvent.removed body q.1))).length ≤ 1 := by
      rw [hprojR]
      apply filterMap_length_le_one
      refine (hOthersPW.filter _).imp_of_mem ?_
      intro q1 q2 hq1 hq2 hne hss
      obtain ⟨hs1, hs2⟩ := hss
      obtain ⟨x1, he1⟩ := Option.isSome_iff_exists.mp hs1
      obtain ⟨x2, he2⟩ := Option.isSome_iff_exists.mp hs2
      obtain ⟨hn1, _⟩ := projEvent_removed_eq.mp he1
      obtain ⟨hn2, _⟩ := projEvent_removed_eq.mp he2
      have h1b : q1.1 ≠ body := hOthers q1 (List.mem_filter.mp hq1).1
      have h2b : q2.1 ≠ body := hOthers q2 (List.mem_filter.mp hq2).1
      exact hne (normPair_inj (fun h => h1b h.symm) (fun h => h2b h.symm)
        (hn1.trans hn2.symm))
    have hlenA : (projTrace p (((S.bodies.filter (fun q => decide (q.1 ≠ body))).filter
        (fun q => !pairMem S.pairs body q.1 && overlap3D aabb q.2)).map
        (fun q => PairEvent.added body q.1))).length ≤ 1 := by
      rw [hprojA]
      apply filterMap_length_le_one
      refine (hOthersPW.filter _).imp_of_mem ?_
      intro q1 q2 hq1 hq2 hne hss
      obtain ⟨hs1, hs2⟩ := hss
      obtain ⟨x1, he1⟩ := Option.isSome_iff_exists.mp hs1
      obtain ⟨x2, he2⟩ := Option.isSome_iff_exists.mp hs2
      obtain ⟨hn1, _⟩ := projEvent_added_eq.mp he1
      obtain ⟨hn2, _⟩ := projEvent_added_eq.mp he2
      have h1b : q1.1 ≠ body := hOthers q1 (List.mem_filter.mp hq1).1
      have h2b : q2.1 ≠ body := hOthers q2 (List.mem_filter.mp hq2).1
      exact hne (normPair_inj (fun h => h1b h.symm) (fun h => h2b h.symm)
        (hn1.trans hn2.symm))
    by_cases hR0 : projTrace p (((S.bodies.filter (fun q => decide (q.1 ≠ body))).filter
        (fun q => pairMem S.pairs body q.1 && !overlap3D aabb q.2)).map
        (fun q => PairEvent.removed body q.1)) = []
    · rw [hR0]
      simpa using hlenA
    · have hA0 : projTrace p (((S.bodies.filter (fun q => decide (q.1 ≠ body))).filter
          (fun q => !pairMem S.pairs body q.1 && overlap3D aabb q.2)).map
          (fun q => PairEvent.added body q.1)) = [] := by
        by_contra hA0
        obtain ⟨x1, hx1⟩ := List.exists_mem_of_ne_nil _ hR0
        obtain ⟨x2, hx2⟩ := List.exists_mem_of_ne_nil _ hA0
        rw [hprojR] at hx1
        rw [hprojA] at hx2
        obtain ⟨q1, hq1, he1⟩ := List.mem_filterMap.mp hx1
        obtain ⟨q2, hq2, he2⟩ := List.mem_filterMap.mp hx2
        obtain ⟨hn1, _⟩ := projEvent_removed_eq.mp he1
        obtain ⟨hn2, _⟩ := projEvent_added_eq.mp he2
        obtain ⟨hq1o, hq1f⟩ := List.mem_filter.mp hq1
        obtain ⟨hq2o, hq2f⟩ := List.mem_filter.mp hq2
        have h1b : q1.1 ≠ body := hOthers q1 hq1o
        have h2b : q2.1 ≠ body := hOthers q2 hq2o
        have hkey : q1.1 = q2.1 := normPair_inj (fun h => h1b h.symm)
          (fun h => h2b h.symm) (hn1.trans hn2.symm)
        have hqq : q1 = q2 := keys_nodup_eq hOthersNodup hq1o hq2o hkey
        rw [Bool.and_eq_true] at hq1f hq2f
        rw [hqq, Bool.not_eq_true'] at hq1f
        rw [hq1f.1] at hq2f
        exact Bool.noConfusion hq2f.1
      rw [hA0]
      simpa using hlenR
  · rw [projTrace_append, List.mem_append]
    constructor
    · rintro (h | h)
      · rw [hprojR] at h
        obtain ⟨q, hq, he⟩ := List.mem_filterMap.mp h
        obtain ⟨_, hx⟩ := projEvent_removed_eq.mp he
        exact Bool.noConfusion hx
      · rw [hprojA] at h
        obtain ⟨q, hq, he⟩ := List.mem_filterMap.mp h
        obtain ⟨hn, _⟩ := projEvent_added_eq.mp he
        exact List.mem_map.mpr ⟨q, hq, hn⟩
    · intro h
      obtain ⟨q, hq, he⟩ := List.mem_map.mp h
      right
      rw [hprojA]
      exact List.mem_filterMap.mpr ⟨q, hq, projEvent_added_eq.mpr ⟨he, rfl⟩⟩
  · rw [projTrace_append, List.mem_append]
    constructor
    · rintro (h | h)
      · rw [hprojR] at h
        obtain ⟨q, hq, he⟩ := List.mem_filterMap.mp h
        obtain ⟨hn, _⟩ := projEvent_removed_eq.mp he
        exact List.mem_map.mpr ⟨q, hq, hn⟩
      · rw [hprojA] at h
        obtain ⟨q, hq, he⟩ := List.mem_filterMap.mp h
        obtain ⟨_, hx⟩ := projEvent_added_eq.mp he
        exact Bool.noConfusion hx
    · intro h
      obtain ⟨q, hq, he⟩ := List.mem_map.mp h
      left
      rw [hprojR]
      exact List.mem_filterMap.mpr ⟨q, hq, projEvent_removed_eq.mpr ⟨he, rfl⟩⟩
  · intro h hp
    obtain ⟨q, hq, he⟩ := List.mem_map.mp h
    have hqf := (List.mem_filter.mp hq).2
    rw [Bool.and_eq_true, Bool.not_eq_true'] at hqf
    have : pairMem S.pairs body q.1 = true := pairMem_iff.mpr (by rw [he]; exact hp)
    rw [this] at hqf
    exact Bool.noConfusion hqf.1
  · intro h
    obtain ⟨q, hq, he⟩ := List.mem_map.mp h
    have hqf := (List.mem_filter.mp hq).2
    rw [Bool.and_eq_true] at hqf
    have := pairMem_iff.mp hqf.1
    rw [he] at this
    exact this
  · exact update_pairs_char hI p

/-- A single call preserves the trace invariant. -/

theorem step_traceInv {S : SAPState} (op : Op) {tr : List PairEvent} (hI : Inv S)
    (hT : TraceInv tr S) : TraceInv (tr ++ (step S op).2) (step S op).1 := by
  cases op with
  | add b a =>
    simp only [step]
    cases hl : lookupBody b S.bodies with
    | some x =>
      have he : addObject b a S = .error .duplicateBody := by
        unfold addObject
        rw [hl]
      rw [he, List.append_nil]
      exact hT
    | none =>
      rw [addObject_spec hl]
      exact addObject_traceInv hI hl hT
  | remove b =>
    simp only [step]
    cases hl : lookupBody b S.bodies with
    | none =>
      have he : removeObject b S = .error .unknownBody := by
        unfold removeObject
        rw [hl]
      rw [he, List.append_nil]
      exact hT
    | some x =>
      rw [removeObject_spec hl]
      exact removeObject_traceInv hI hT
  | update b a =>
    simp only [step]
    cases hl : lookupBody b S.bodies with
    | none =>
      have he : updateObject b a S = .error .unknownBody := by
        unfold updateObject
        rw [hl]
      rw [he, List.append_nil]
      exact hT
    | some x =>
      rw [updateObject_spec hl]
      exact updateObject_traceInv hI hT

theorem emptyTraceInv : TraceInv [] emptyState := by
  intro p
  constructor
  · exact List.chain'_nil
  · simp [projTrace, emptyState]

/-- A whole call sequence preserves the trace invariant. -/

theorem run_traceInv {S : SAPState} {ops : List Op} {tr : List PairEvent}
    (hI : Inv S) (hT : TraceInv tr S) (hwf : ∀ op ∈ ops, wfOp op) :
    TraceInv (tr ++ (run S ops).2) (run S ops).1 := by
  induction ops generalizing S tr with
  | nil =>
    rw [run, List.append_nil]
    exact hT
  | cons op ops ih =>
    have h1 := step_traceInv op hI hT
    have h2 := ih (step_inv hI (hwf op (List.mem_cons_self _ _))) h1
      (fun o ho => hwf o (List.mem_cons_of_mem _ ho))
    have h3 : TraceInv (tr ++ ((step S op).2 ++ (run (step S op).1 ops).2))
        (run (step S op).1 ops).1 := by
      rw [← List.append_assoc]
      exact h2
    exact h3

/-- Claim C4 (spec-modelled): after any finite sequence of well-formed calls,
the unordered pairs currently reported as overlapping (a pair-added event
with no subsequent pair-removed event) are exactly the pairs of distinct
live bodies whose most recently supplied AABBs overlap on all three axes. -/

theorem claim_C4 (ops : List Op) (hwf : ∀ op ∈ ops, wfOp op) (a b : Nat) :
    reportedOverlapping (run emptyState ops).2 a b ↔
      (a ≠ b ∧ ∃ aA aB,
        lookupBody a (run emptyState ops).1.bodies = some aA ∧
        lookupBody b (run emptyState ops).1.bodies = some aB ∧
        overlap3D aA aB = true) := by
  have hI := run_inv emptyState_inv hwf
  have hT := run_traceInv emptyState_inv emptyTraceInv hwf
  rw [List.nil_append] at hT
  rw [reportedOverlapping, (hT (normPair a b)).2, ← pairMem_iff]
  exact hI.pairsIff a b

theorem claim_C4_witness :
    reportedOverlapping (run emptyState wOps).2 1 2 ↔
      ((1 : Nat) ≠ 2 ∧ ∃ aA aB,
        lookupBody 1 (run emptyState wOps).1.bodies = some aA ∧
        lookupBody 2 (run emptyState wOps).1.bodies = some aB ∧
        overlap3D aA aB = true) :=
  claim_C4 wOps wOps_wf 1 2

/-- Claim C5 (spec-modelled): in the event stream of any finite sequence of
well-formed calls, the pair-added / pair-removed notifications for each
unordered body pair strictly alternate: no two consecutive events for the
same pair have the same kind. -/

theorem claim_C5 (ops : List Op) (hwf : ∀ op ∈ ops, wfOp op) (a b : Nat) :
    Alternating (projTrace (normPair a b) (run emptyState ops).2) := by
  have hT := run_traceInv emptyState_inv emptyTraceInv hwf
  rw [List.nil_append] at hT
  exact (hT (normPair a b)).1

theorem claim_C5_witness :
    Alternating (projTrace (normPair 1 2) (run emptyState wOps).2) :=
  claim_C5 wOps wOps_wf 1 2

end ReactPhysics3D
